import Mathlib

/-!
Verification of the FFMETADATA codec, timestamp utilities, tag catalog and
probe projection of the `ffmeta` package, via a shallow embedding of the
Python sources (`ffmeta/ffmetadata.py`, `ffmeta/utils.py`, `ffmeta/types.py`,
`ffmeta/services.py`) into Lean.

Strings are modelled as `List Char`.  Python behaviours modelled here:
`str.splitlines`, `str.strip`, `str.lower` (ASCII range; Unicode simple case
mappings outside ASCII do not interact with any of the ASCII-only constants
compared against), `int(...)` literal parsing (ASCII digits), the two regular
expressions of `ffmetadata.py`, the `TIMESTAMP_PATTERN` regex of `utils.py`
(with `re.match` backtracking semantics), `datetime.strptime` with format
`"%H:%M:%S.%f"`, `datetime.time` values, and `datetime.utcfromtimestamp`.
Exceptions are modelled with `Except`/`Option` results.
-/

set_option maxHeartbeats 1000000

abbrev Str := List Char

/-! ### Python character classes (ASCII fragment) -/

/-- Characters recognised by `str.splitlines` as line boundaries
(`\r\n` is additionally treated as a single boundary).  Unicode-only
separators are included for faithfulness. -/
def lineBreakChars : List Char :=
  ['\n', '\r', '\x0b', '\x0c', '\x1c', '\x1d', '\x1e', '\x85', '\u2028', '\u2029']

def isLineBreakChar (c : Char) : Bool := lineBreakChars.contains c

/-- Characters stripped by `str.strip()` (ASCII/Latin-1 whitespace;
further Unicode spaces are not modelled — no claim exercises them). -/
def pySpaceChars : List Char :=
  [' ', '\t', '\n', '\x0b', '\x0c', '\r', '\x1c', '\x1d', '\x1e', '\x1f', '\x85']

def pyIsSpace (c : Char) : Bool := pySpaceChars.contains c

/-- The regex class `\w` (ASCII fragment: alphanumerics and underscore). -/
def isWordChar (c : Char) : Bool := c.isAlphanum || c == '_'

/-- ASCII uppercase-to-lowercase mapping used by `str.lower()` /
`re.IGNORECASE` (ASCII fragment). -/
def lowerPairs : List (Char × Char) :=
  [('A', 'a'), ('B', 'b'), ('C', 'c'), ('D', 'd'), ('E', 'e'), ('F', 'f'),
   ('G', 'g'), ('H', 'h'), ('I', 'i'), ('J', 'j'), ('K', 'k'), ('L', 'l'),
   ('M', 'm'), ('N', 'n'), ('O', 'o'), ('P', 'p'), ('Q', 'q'), ('R', 'r'),
   ('S', 's'), ('T', 't'), ('U', 'u'), ('V', 'v'), ('W', 'w'), ('X', 'x'),
   ('Y', 'y'), ('Z', 'z')]

def pyLowerChar (c : Char) : Char :=
  match lowerPairs.find? (fun p => p.1 == c) with
  | some p => p.2
  | none => c

/-- `str.lower()`. -/
def pyLower (s : Str) : Str := s.map pyLowerChar

/-- `str.strip()` with no argument. -/
def pyStrip (s : Str) : Str :=
  ((s.dropWhile pyIsSpace).reverse.dropWhile pyIsSpace).reverse

/-! ### `str.splitlines` -/

def splitlinesAux : Str → Str → List Str
  | [], acc => if acc.isEmpty then [] else [acc.reverse]
  | '\r' :: '\n' :: rest, acc => acc.reverse :: splitlinesAux rest []
  | c :: rest, acc =>
    if isLineBreakChar c then acc.reverse :: splitlinesAux rest []
    else splitlinesAux rest (c :: acc)

def splitlines (s : Str) : List Str := splitlinesAux s []

/-! ### Decimal digits, `str(int)` and `int(str)` -/

def digitChar (n : Nat) : Char := Char.ofNat (48 + n)

def digitVal (c : Char) : Nat := c.toNat - 48

def natDigitsAux : Nat → Nat → Str
  | 0, _ => []
  | fuel + 1, n =>
    if n < 10 then [digitChar n]
    else natDigitsAux fuel (n / 10) ++ [digitChar (n % 10)]

/-- Decimal digit string of a natural number (used for Python's string
formatting of non-negative integers).  The fuel argument only serves
structural recursion; `n + 1` steps always suffice. -/
def natDigits (n : Nat) : Str := natDigitsAux (n + 1) n

/-- `str(n)` for a Python int. -/
def intStr (n : Int) : Str :=
  if n < 0 then '-' :: natDigits n.natAbs else natDigits n.toNat

/-- Value of a digit string (most significant first). -/
def digitsVal (s : Str) : Nat := s.foldl (fun acc c => 10 * acc + digitVal c) 0

/-- Digit groups possibly separated by single underscores, as accepted
inside a Python `int()` literal (must start and end with a digit). -/
def pyIntDigits : Nat → Str → Option Nat
  | acc, [] => some acc
  | acc, '_' :: c :: rest =>
    if c.isDigit then pyIntDigits (10 * acc + digitVal c) rest else none
  | acc, c :: rest =>
    if c.isDigit then pyIntDigits (10 * acc + digitVal c) rest else none

def pyIntSigned : Str → Option Int
  | '-' :: c :: rest =>
    if c.isDigit then (pyIntDigits (digitVal c) rest).map (fun n => -(n : Int)) else none
  | '+' :: c :: rest =>
    if c.isDigit then (pyIntDigits (digitVal c) rest).map (fun n => (n : Int)) else none
  | c :: rest =>
    if c.isDigit then (pyIntDigits (digitVal c) rest).map (fun n => (n : Int)) else none
  | [] => none

/-- `int(s)` on a string: surrounding whitespace stripped, optional sign,
ASCII digits with optional single underscore separators.  (Unicode digits
are not modelled.)  `none` models the raised `ValueError`. -/
def pyInt (s : Str) : Option Int := pyIntSigned (pyStrip s)

/-! ### `datetime.time` values and `ffmeta/utils.py` -/

/-- A `datetime.time` value (hour/minute/second/microsecond; tzinfo unused).
The constructor invariants of `datetime.time` are stated as `PyTimeValid`. -/
structure PyTime where
  hour : Nat
  minute : Nat
  second : Nat
  microsecond : Nat
deriving DecidableEq, Repr

/-- The range invariant `datetime.time` enforces at construction. -/
def PyTimeValid (t : PyTime) : Prop :=
  t.hour < 24 ∧ t.minute < 60 ∧ t.second < 60 ∧ t.microsecond < 1000000

instance (t : PyTime) : Decidable (PyTimeValid t) := by
  unfold PyTimeValid; infer_instance

/-- `utils.milliseconds_to_time`:
`datetime.utcfromtimestamp(ms // 1000).replace(microsecond=ms % 1000 * 1000).time()`.
Python `//` is floor division and `%` a non-negative remainder, and
`.time()` keeps only the time of day, i.e. seconds modulo 86400. -/
def milliseconds_to_time (milliseconds : Int) : PyTime :=
  let secs : Int := milliseconds.fdiv 1000
  let sod : Nat := (secs.emod 86400).toNat
  let micro : Nat := ((milliseconds.emod 1000) * 1000).toNat
  ⟨sod / 3600, sod / 60 % 60, sod % 60, micro⟩

/-- Zero-pad a digit string on the left to width `w` (printf `%0wd`). -/
def padNat (w : Nat) (n : Nat) : Str :=
  List.replicate (w - (natDigits n).length) '0' ++ natDigits n

/-- `utils.format_timestamp`: `timestamp.strftime("%H:%M:%S.%f")[:-3]`
(`%f` is the microsecond count zero-padded to 6 digits; the final three
characters are removed). -/
def format_timestamp (t : PyTime) : Str :=
  let s := padNat 2 t.hour ++ ':' :: padNat 2 t.minute ++ ':' :: padNat 2 t.second
    ++ '.' :: padNat 6 t.microsecond
  s.take (s.length - 3)

/-! `utils.TIMESTAMP_PATTERN` is
`(?:(?P<hours>\d+):)?(?P<minutes>\d{1,2}):(?P<seconds>\d{1,2})(?:\.(?P<milliseconds>\d{0,3}))?`
used with `re.match` (anchored at the start, trailing input ignored).
Because `:` and `.` are not digits, the regex engine's backtracking
collapses to the deterministic decisions implemented below; the only
genuine alternative is the optional `hours` group, tried first and
abandoned when the remainder fails. -/

/-- The `(?:(?P<hours>\d+):)?` group: a maximal digit run followed by `:`. -/
def tpHours (s : Str) : Option (Nat × Str) :=
  match s.takeWhile Char.isDigit, s.dropWhile Char.isDigit with
  | [], _ => none
  | ds, ':' :: rest => some (digitsVal ds, rest)
  | _, _ => none

/-- `(?P<minutes>\d{1,2})` followed by the literal `:` (greedy with
backtracking; the separator is not a digit, so the choice is forced). -/
def tpMinutes : Str → Option (Nat × Str)
  | a :: b :: rest =>
    if a.isDigit then
      if b.isDigit then
        match rest with
        | ':' :: rest2 => some (10 * digitVal a + digitVal b, rest2)
        | _ => none
      else if b = ':' then some (digitVal a, rest) else none
    else none
  | _ => none

/-- `(?P<seconds>\d{1,2})`, greedy; nothing after it can fail, so it simply
takes up to two digits. -/
def tpSeconds : Str → Option (Nat × Str)
  | a :: b :: rest =>
    if a.isDigit then
      if b.isDigit then some (10 * digitVal a + digitVal b, rest)
      else some (digitVal a, b :: rest)
    else none
  | [a] => if a.isDigit then some (digitVal a, []) else none
  | [] => none

/-- `(?:\.(?P<milliseconds>\d{0,3}))?`: optionally a dot and up to three
digits; a missing or empty group yields 0 (`int(... or 0)` in the source). -/
def tpMillis : Str → Nat
  | '.' :: rest => digitsVal ((rest.takeWhile Char.isDigit).take 3)
  | _ => 0

/-- `re.match(TIMESTAMP_PATTERN, s)`, reduced to the extracted group values
`(hours, minutes, seconds, milliseconds)` with absent groups as 0. -/
def tpMatch (s : Str) : Option (Nat × Nat × Nat × Nat) :=
  match tpHours s with
  | some (h, rest) =>
    match tpMinutes rest with
    | some (m, rest2) =>
      match tpSeconds rest2 with
      | some (sec, rest3) => some (h, m, sec, tpMillis rest3)
      | none =>
        match tpMinutes s with
        | some (m', rest2') =>
          match tpSeconds rest2' with
          | some (sec', rest3') => some (0, m', sec', tpMillis rest3')
          | none => none
        | none => none
    | none =>
      match tpMinutes s with
      | some (m', rest2') =>
        match tpSeconds rest2' with
        | some (sec', rest3') => some (0, m', sec', tpMillis rest3')
        | none => none
      | none => none
  | none =>
    match tpMinutes s with
    | some (m, rest2) =>
      match tpSeconds rest2 with
      | some (sec, rest3) => some (0, m, sec, tpMillis rest3)
      | none => none
    | none => none

/-- `utils.timestamp_to_milliseconds`; `none` models the raised
`ValueError` when the pattern does not match. -/
def timestamp_to_milliseconds (timestamp : Str) : Option Int :=
  (tpMatch timestamp).map
    (fun g => ((((((g.1 * 60) + g.2.1) * 60) + g.2.2.1) * 1000 : Nat) + g.2.2.2 : Nat))

/-- `utils.time_to_milliseconds`. -/
def time_to_milliseconds (timestamp : PyTime) : Option Int :=
  timestamp_to_milliseconds (format_timestamp timestamp)

/-- `utils.milliseconds_to_timestamp`. -/
def milliseconds_to_timestamp (milliseconds : Int) : Str :=
  format_timestamp (milliseconds_to_time milliseconds)

/-! ### `utils.parse_timestamp` — `datetime.strptime(f"{t}000", "%H:%M:%S.%f")`

CPython's `_strptime` compiles `%H:%M:%S.%f` to the regex
`(2[0-3]|[0-1]\d|\d):([0-5]\d|\d):(6[0-1]|[0-5]\d|\d)\.(\d{1,6})`, requires
it to consume the whole input, right-pads the fraction digits with zeros to
six digits to obtain the microsecond count, and finally constructs
`datetime(...)`, which rejects a seconds value of 60 or 61. -/

/-- `%H`: `2[0-3]|[0-1]\d|\d` followed by `:` — two digits when their value
is at most 23, else one digit. -/
def spHours : Str → Option (Nat × Str)
  | a :: b :: rest =>
    if a.isDigit then
      if b.isDigit then
        match rest with
        | ':' :: rest2 =>
          if 10 * digitVal a + digitVal b ≤ 23
          then some (10 * digitVal a + digitVal b, rest2) else none
        | _ => none
      else if b = ':' then some (digitVal a, rest) else none
    else none
  | _ => none

/-- `%M`: `[0-5]\d|\d` followed by `:`. -/
def spMinutes : Str → Option (Nat × Str)
  | a :: b :: rest =>
    if a.isDigit then
      if b.isDigit then
        match rest with
        | ':' :: rest2 =>
          if digitVal a ≤ 5 then some (10 * digitVal a + digitVal b, rest2) else none
        | _ => none
      else if b = ':' then some (digitVal a, rest) else none
    else none
  | _ => none

/-- `%S`: `6[0-1]|[0-5]\d|\d` followed by `.` (leap-second values 60 and 61
pass the scan and are rejected later by the `datetime` constructor). -/
def spSeconds : Str → Option (Nat × Str)
  | a :: b :: rest =>
    if a.isDigit then
      if b.isDigit then
        match rest with
        | '.' :: rest2 =>
          if digitVal a ≤ 5 ∨ (digitVal a = 6 ∧ digitVal b ≤ 1)
          then some (10 * digitVal a + digitVal b, rest2) else none
        | _ => none
      else if b = '.' then some (digitVal a, rest) else none
    else none
  | _ => none

/-- `%f` at end of pattern: one to six digits which must exhaust the
input; the digits are right-padded with zeros to six places. -/
def spFraction (s : Str) : Option Nat :=
  let ds := s.takeWhile Char.isDigit
  if 1 ≤ ds.length ∧ ds.length ≤ 6 ∧ s.dropWhile Char.isDigit = []
  then some (digitsVal ds * 10 ^ (6 - ds.length)) else none

/-- `datetime.strptime(s, "%H:%M:%S.%f").time()`; `none` models the raised
`ValueError` (either a pattern mismatch or seconds ≥ 60 at construction). -/
def strptimeHMSf (s : Str) : Option PyTime :=
  match spHours s with
  | none => none
  | some (h, r1) =>
    match spMinutes r1 with
    | none => none
    | some (m, r2) =>
      match spSeconds r2 with
      | none => none
      | some (sec, r3) =>
        match spFraction r3 with
        | none => none
        | some micro => if sec ≥ 60 then none else some ⟨h, m, sec, micro⟩

/-- `utils.parse_timestamp`: `datetime.strptime(f"{timestamp}000", "%H:%M:%S.%f").time()`. -/
def parse_timestamp (timestamp : Str) : Option PyTime :=
  strptimeHMSf (timestamp ++ ['0', '0', '0'])

/-! ### `ffmeta/types.py`: tag catalog and domain model -/

/-- `types.TagDefinition`.  The `validators` and `default` fields hold
Python callables and are not part of any data compared by the claims;
they are omitted from the embedding. -/
structure TagDefinition where
  title : Str
  description : Str
  key : Str
  examples : List Str
  write_key : Option Str
deriving DecidableEq, Repr

def td (title description key : String) : Str × TagDefinition :=
  (key.data, ⟨title.data, description.data, key.data, [], none⟩)

def tdW (title description key writeKey : String) : Str × TagDefinition :=
  (key.data, ⟨title.data, description.data, key.data, [], some writeKey.data⟩)

def tdE (title description key : String) (examples : List String) : Str × TagDefinition :=
  (key.data, ⟨title.data, description.data, key.data, examples.map String.data, none⟩)

/-- `types.TAG_DEFINITIONS`: the catalog dict, as an association list in
insertion order (only key membership and lookup are used by the claims). -/
def TAG_DEFINITIONS : List (Str × TagDefinition) :=
  [td "Album Artist" "Name of the album artist" "album_artist",
   td "Album Title" "Name of the album" "album",
   tdW "Sorting Album Title" "Name of the album to use for sorting" "sort_album" "album-sort",
   tdW "Artist Name" "Name of the artist" "artist" "author",
   tdW "Sorting Artist Name" "Name of the artist to use for sorting" "sort_artist" "artist-sort",
   td "Comment" "General comments" "comment",
   td "Compliation" "Name of the compliation the content is a part of" "compliation",
   td "Copyright" "Copyright information" "copyright",
   td "Encoded Time" "Datetime when the content was encoded" "creation_time",
   td "Release Date" "The date the content was released" "date",
   td "Release Year" "The year the content was released" "year",
   td "Encoded By" "Name of the person or company who encoded the content" "encoded_by",
   td "Encoder" "Name of the software used for encoding" "encoder",
   td "Episode ID" "The unique ID of the episode" "episode_id",
   td "Episode Number" "The episode number within the season" "episode_sort",
   td "Season Number" "The season number of a show" "season_number",
   tdE "Genre" "The genre of the content" "genre"
     ["Alternative", "Lo-fi", "Punk", "Rock", "Classic Blues"],
   -- The source's `grouping` entry passes `description` and `key` swapped:
   -- the dict key is `grouping`, while the TagDefinition's `key` field holds
   -- the long descriptive string and its `description` field holds `grouping`.
   ("grouping".data,
    ⟨"Grouping".data, "grouping".data,
     "The name of the group this content belongs to".data, [], none⟩),
   tdE "Video Quality" "A flag used to mark the general quality of a video" "hd_video"
     ["0 = SD", "1 = 720p", "2 = 1080p/i Full HD", "3 = 2160p UHD"],
   tdE "Language" "Language identifier for the original/displayed language (ISO 639-1)"
     "language" ["EN", "JA", "ZH"],
   td "Lyrics" "Unsynchronized lyrics" "lyrics",
   tdE "Media Type" "The type of the content" "media_type"
     ["TV Show", "Movie", "Music", "Podcast"],
   td "Network" "The name of the network who owns the content" "network",
   td "Publisher" "The name of a publisher" "publisher",
   td "Producer" "The name of a producer" "producer",
   td "Performer" "The name of a performer" "performer",
   td "Composer" "The name of a composer" "composer",
   td "Director" "The name of a director" "director",
   td "Show" "The name of the show the episode belongs to" "show",
   td "Synopsis" "Short description of the content" "synopsis",
   td "Description" "Long description of the content" "description",
   td "Title" "Title of the content" "title",
   tdW "Sorting Title" "Title of the content to use for sorting" "sort_name" "title-sort",
   td "Subtitle" "Subtitle of the content" "subtitle",
   tdE "Track" "The track identifier for the content" "track"
     ["Track Number / Total Tracks"],
   tdE "Disc" "The disc identifier for the content" "disc"
     ["Disc Number / Total Discs"],
   tdE "Advisory Rating" "A flag that is used to mark explicit content" "rating"
     ["0 = None", "1 = Clean", "2 = Explicit"],
   tdE "Location" "GPS coordinates related to the content" "location"
     ["+90.0,-127.554334", "45,180", "045,180", "-90.,-180."],
   td "Keywords" "Generic keywords separated by commas" "keywords",
   td "URL" "A URL that is related to the content" "URL",
   tdE "Podcast Flag" "A flag that indicates if some audio content is a podcast" "podcast"
     ["0 = Not Podcast", "1 = Is Podcast"],
   td "Podcast Category" "The name of the category the podcast belongs to" "category",
   td "Podcast Episode" "The unique ID for the podcast episode" "episode_uid"]

/-- `types.MediaChapter`. -/
structure MediaChapter where
  title : Str
  start_time : PyTime
  end_time : PyTime
  description : Option Str
deriving DecidableEq, Repr

/-- `types.MediaMetadata` (`version` defaults to `"1"`). -/
structure MediaMetadata where
  version : Str
  tags : List (Str × Str)
  chapters : List MediaChapter
deriving DecidableEq, Repr

/-- `MediaMetadata.iter_defined_tags` (the lazy generator, as the list it
yields): `if tag_key not in TAG_DEFINITIONS: continue` — an exact dict
membership test — `else yield (TAG_DEFINITIONS[tag_key], tag_value)`. -/
def MediaMetadata.iter_defined_tags (m : MediaMetadata) : List (TagDefinition × Str) :=
  m.tags.filterMap (fun kv =>
    match TAG_DEFINITIONS.lookup kv.1 with
    | none => none
    | some d => some (d, kv.2))

/-! ### `ffmeta/ffmetadata.py`: the FFMETADATA codec -/

/-- The exceptions `loads_ffmetadata` can raise: `lines[0]` on an empty
line list (`IndexError`), the missing-header `ValueError`, the
incomplete-chapter-at-boundary `ValueError` (carrying the 0-based index
into `lines[1:]` interpolated into its message), and the `ValueError`
raised by `int(value)` on a malformed `start`/`end` value. -/
inductive FFErr where
  | indexError
  | missingHeader
  | incompleteChapter (lineIndex : Nat)
  | badInt
deriving DecidableEq, Repr

/-- `re.match(FFMETADATA_CHAPTER_PATTERN, line)`:
the whole line equals `[chapter]` case-insensitively. -/
def isChapterLine (line : Str) : Bool := pyLower line == "[chapter]".data

/-- `re.match(FFMETADATA_KV_PATTERN, line)` with pattern
`^(?P<key>\w+)=(?P<value>.*)$`: a non-empty maximal word-character run
followed by `=`; the value is the remainder of the line. -/
def kvMatch (line : Str) : Option (Str × Str) :=
  match line.takeWhile isWordChar, line.dropWhile isWordChar with
  | [], _ => none
  | k, '=' :: v => some (k, v)
  | _, _ => none

/-- The nested `_build_media_chapter`: returns `None` when the title is
missing or empty or either time is missing (`datetime.time` values are
always truthy). -/
def build_media_chapter (title description : Option Str)
    (start_time end_time : Option PyTime) : Option MediaChapter :=
  match title, start_time, end_time with
  | some t, some s, some e => if t = [] then none else some ⟨t, s, e, description⟩
  | _, _, _ => none

/-- The loop state of `loads_ffmetadata`. -/
structure ParseState where
  tags : List (Str × Str)
  chapters : List MediaChapter
  is_parsing_chapter : Bool
  start_time : Option PyTime
  end_time : Option PyTime
  title : Option Str
  description : Option Str
deriving DecidableEq, Repr

def initParseState : ParseState := ⟨[], [], false, none, none, none, none⟩

/-- Truthiness of the `title` variable in `all([title, start_time, end_time])`:
a `str` is truthy iff non-empty (`None` is falsy). -/
def truthyOptStr : Option Str → Bool
  | none => false
  | some s => !s.isEmpty

/-- One iteration of the `for (line_index, line) in enumerate(lines[1:])`
loop of `loads_ffmetadata`. -/
def processLine (lineIndex : Nat) (line : Str) (s : ParseState) :
    Except FFErr ParseState :=
  if (pyStrip line).length = 0 then .ok s
  else if isChapterLine line then
    if s.is_parsing_chapter then
      if !(truthyOptStr s.title && s.start_time.isSome && s.end_time.isSome) then
        .error (.incompleteChapter lineIndex)
      else
        let s' :=
          match build_media_chapter s.title s.description s.start_time s.end_time with
          | some c => { s with chapters := s.chapters ++ [c] }
          | none => s
        .ok { s' with start_time := none, end_time := none, title := none,
                      description := none, is_parsing_chapter := true }
    else .ok { s with is_parsing_chapter := true }
  else
    match kvMatch line with
    | none => .ok s
    | some (k, v) =>
      let key := pyStrip k
      if !s.is_parsing_chapter then .ok { s with tags := s.tags ++ [(key, v)] }
      else
        let keyNormalized := pyLower key
        if keyNormalized = "start".data then
          match pyInt v with
          | some n => .ok { s with start_time := some (milliseconds_to_time n) }
          | none => .error .badInt
        else if keyNormalized = "end".data then
          match pyInt v with
          | some n => .ok { s with end_time := some (milliseconds_to_time n) }
          | none => .error .badInt
        else if keyNormalized = "title".data then .ok { s with title := some v }
        else if keyNormalized = "description".data then .ok { s with description := some v }
        else .ok s

def runLines (lineIndex : Nat) (ls : List Str) (s : ParseState) :
    Except FFErr ParseState :=
  match ls with
  | [] => .ok s
  | l :: rest =>
    match processLine lineIndex l s with
    | .ok s' => runLines (lineIndex + 1) rest s'
    | .error e => .error e

/-- The `if is_parsing_chapter:` block after the loop: a still-open chapter
is appended when complete and silently dropped otherwise. -/
def finishChapters (s : ParseState) : List MediaChapter :=
  if s.is_parsing_chapter then
    match build_media_chapter s.title s.description s.start_time s.end_time with
    | some c => s.chapters ++ [c]
    | none => s.chapters
  else s.chapters

instance {e a : Type} [DecidableEq e] [DecidableEq a] : DecidableEq (Except e a) := fun x y =>
  match x, y with
  | .error u, .error v =>
    decidable_of_iff (u = v) ⟨fun h => by rw [h], fun h => by injection h⟩
  | .ok u, .ok v =>
    decidable_of_iff (u = v) ⟨fun h => by rw [h], fun h => by injection h⟩
  | .error _, .ok _ => isFalse (fun h => Except.noConfusion h)
  | .ok _, .error _ => isFalse (fun h => Except.noConfusion h)

/-- `ffmetadata.loads_ffmetadata`. -/
def loads_ffmetadata (content : Str) : Except FFErr MediaMetadata :=
  match splitlines content with
  | [] => .error .indexError
  | first :: rest =>
    if pyStrip (pyLower first) ≠ ";ffmetadata".data then .error .missingHeader
    else
      match runLines 0 rest initParseState with
      | .error e => .error e
      | .ok s => .ok ⟨"1".data, s.tags, finishChapters s⟩

/-- Truthiness of `chapter.description` (an `Optional[str]`). -/
def truthyDesc : Option Str → Bool
  | none => false
  | some s => !s.isEmpty

/-- `"sep".join(parts)`. -/
def joinSep (sep : Str) : List Str → Str
  | [] => []
  | [x] => x
  | x :: y :: rest => x ++ sep ++ joinSep sep (y :: rest)

/-- `ffmetadata.dumps_ffmetadata_chapter`; `none` models the `ValueError`
propagated out of `time_to_milliseconds` (unreachable for valid times).
`filter(None, ...)` drops the absent description entry (every other entry
is a non-empty string, so truthiness filtering only removes `None`). -/
def dumps_ffmetadata_chapter (chapter : MediaChapter) : Option Str :=
  match time_to_milliseconds chapter.start_time,
        time_to_milliseconds chapter.end_time with
  | some s, some e =>
    some (joinSep ['\n'] (List.filterMap id
      [some "[CHAPTER]".data,
       some "TIMEBASE=1/1000".data,
       some ("START=".data ++ intStr s),
       some ("END=".data ++ intStr e),
       some ("title=".data ++ chapter.title),
       if truthyDesc chapter.description
       then some ("description=".data ++ chapter.description.getD [])
       else none]))
  | _, _ => none

def mapMOptionChapter : List MediaChapter → Option (List Str)
  | [] => some []
  | c :: rest =>
    match dumps_ffmetadata_chapter c, mapMOptionChapter rest with
    | some b, some bs => some (b :: bs)
    | _, _ => none

/-- `ffmetadata.dumps_ffmetadata`. -/
def dumps_ffmetadata (metadata : MediaMetadata) : Option Str :=
  match mapMOptionChapter metadata.chapters with
  | none => none
  | some blocks =>
    some (joinSep ['\n']
      [";FFMETADATA".data,
       joinSep ['\n'] (metadata.tags.map (fun kv => kv.1 ++ '=' :: kv.2)),
       [],
       joinSep ['\n', '\n'] blocks])

/-! ### `ffmeta/services.py`: probe-result chapter projection -/

/-- One raw chapter record from the probe output, restricted to the fields
`probe_metadata` reads: the numeric `start` field (sort key), the optional
`start_time`/`end_time` seconds strings, and the `tags` mapping's `title`
and `description` entries (`none` models a missing key). -/
structure RawChapter where
  start : Int
  start_time : Option Str
  end_time : Option Str
  tag_title : Option Str
  tag_description : Option Str
deriving DecidableEq, Repr

/-- Truthiness of `chapter.get("start_time")`: falsy when the key is
missing or the string empty. -/
def falsyOptStr : Option Str → Bool
  | none => true
  | some s => s.isEmpty

/-- `float(s)` for a plain decimal string (optional sign, digits, optional
fraction), multiplied by 1000 and truncated toward zero as by `int(...)`.
IEEE-754 rounding of the intermediate Python float is not modelled; the
concrete values appearing in theorems below are exactly representable, so
the two computations agree there.  `none` models the `ValueError` of
`float` on a malformed string. -/
def decimalTimes1000Trunc (s : Str) : Option Int :=
  let core := fun (t : Str) (sign : Int) =>
    let ip := t.takeWhile Char.isDigit
    let rest := t.dropWhile Char.isDigit
    match rest with
    | '.' :: fp =>
      if fp.all Char.isDigit ∧ (ip ≠ [] ∨ fp ≠ []) then
        some (sign * (((digitsVal (ip ++ fp) * 1000 : Nat) : Int) / ((10 : Int) ^ fp.length)))
      else none
    | [] => if ip ≠ [] then some (sign * ((digitsVal ip * 1000 : Nat) : Int)) else none
    | _ => none
  match s with
  | '-' :: t => core t (-1)
  | '+' :: t => core t 1
  | t => core t 1

/-- Stable insertion used to model Python's stable `sorted(..., key=...)`:
an element is inserted after every earlier element whose key does not
exceed it, which preserves the original relative order of equal keys. -/
def chapterInsert (x : RawChapter) : List RawChapter → List RawChapter
  | [] => [x]
  | y :: ys => if x.start ≤ y.start then x :: y :: ys else y :: chapterInsert x ys

/-- `sorted(chapters, key=lambda chapter: chapter["start"])`. -/
def sortChapters : List RawChapter → List RawChapter
  | [] => []
  | x :: xs => chapterInsert x (sortChapters xs)

/-- The `for (chapter_index, chapter) in enumerate(sorted(...))` loop of
`probe_metadata`, returning the projected chapters together with the
indices reported by the non-fatal warnings for skipped chapters.
`none` models an uncaught `ValueError` from `float`. -/
def projectChapters (chapterIndex : Nat) :
    List RawChapter → Option (List MediaChapter × List Nat)
  | [] => some ([], [])
  | c :: rest =>
    if falsyOptStr c.start_time || falsyOptStr c.end_time then
      match projectChapters (chapterIndex + 1) rest with
      | some (cs, ws) => some (cs, chapterIndex :: ws)
      | none => none
    else
      match decimalTimes1000Trunc (c.start_time.getD []),
            decimalTimes1000Trunc (c.end_time.getD []) with
      | some sMs, some eMs =>
        match projectChapters (chapterIndex + 1) rest with
        | some (cs, ws) =>
          some (⟨c.tag_title.getD [], milliseconds_to_time sMs,
                 milliseconds_to_time eMs, c.tag_description⟩ :: cs, ws)
        | none => none
      | _, _ => none

/-- The chapter-projection part of `services.probe_metadata` (lines
213–236): raw chapters are sorted by their `start` field and projected in
order; chapters with a falsy `start_time` or `end_time` are skipped with a
warning identifying their (post-sort) index. -/
def probe_metadata_chapters (chapters : List RawChapter) :
    Option (List MediaChapter × List Nat) :=
  projectChapters 0 (sortChapters chapters)

/-! ### Well-formedness predicates used by the round-trip theorems -/

/-- A string free of the line-boundary characters of `str.splitlines`. -/
def NoLB (s : Str) : Prop := ∀ c ∈ s, isLineBreakChar c = false

/-- A non-empty string of `\w` characters. -/
def WordStr (s : Str) : Prop := s ≠ [] ∧ ∀ c ∈ s, isWordChar c = true

/-- The time has whole-millisecond precision (the resolution of the
FFMETADATA wire format). -/
def MsAligned (t : PyTime) : Prop := t.microsecond % 1000 = 0

def WFTag (kv : Str × Str) : Prop := WordStr kv.1 ∧ NoLB kv.2

def WFChapter (c : MediaChapter) : Prop :=
  c.title ≠ [] ∧ NoLB c.title ∧
  PyTimeValid c.start_time ∧ MsAligned c.start_time ∧
  PyTimeValid c.end_time ∧ MsAligned c.end_time ∧
  (∀ d, c.description = some d → NoLB d)

/-- Serialisation drops an empty-string description, so reparsing yields
`none` for it; all other fields survive unchanged. -/
def descNorm (c : MediaChapter) : MediaChapter :=
  { c with description := match c.description with
      | some d => if d = [] then none else some d
      | none => none }

/-- `((t.hour * 60 + t.minute) * 60 + t.second) * 1000 + t.microsecond / 1000`:
the millisecond value produced by `time_to_milliseconds` on a valid time. -/
def timeMs (t : PyTime) : Nat :=
  ((t.hour * 60 + t.minute) * 60 + t.second) * 1000 + t.microsecond / 1000

/-! ### Character-class lemmas -/

theorem word_not_space {c : Char} (h : isWordChar c = true) : pyIsSpace c = false := by
  by_contra hs
  have hmem : c ∈ pySpaceChars :=
    List.mem_of_elem_eq_true (eq_true_of_ne_false hs)
  fin_cases hmem <;> simp_all [isWordChar, Char.isAlphanum, Char.isAlpha,
    Char.isDigit, Char.isUpper, Char.isLower]

theorem word_not_lb {c : Char} (h : isWordChar c = true) : isLineBreakChar c = false := by
  by_contra hs
  have hmem : c ∈ lineBreakChars :=
    List.mem_of_elem_eq_true (eq_true_of_ne_false hs)
  fin_cases hmem <;> simp_all [isWordChar, Char.isAlphanum, Char.isAlpha,
    Char.isDigit, Char.isUpper, Char.isLower]

theorem digit_word {c : Char} (h : c.isDigit = true) : isWordChar c = true := by
  simp [isWordChar, Char.isAlphanum, h]

theorem pyLowerChar_lbrack {c : Char} (h : pyLowerChar c = '[') : c = '[' := by
  unfold pyLowerChar at h
  rcases hf : lowerPairs.find? (fun p => p.1 == c) with _ | p
  · rw [hf] at h; exact h
  · rw [hf] at h
    have hpm : p ∈ lowerPairs := List.mem_of_find?_eq_some hf
    have : p.2 ≠ '[' := by fin_cases hpm <;> decide
    exact absurd h this

theorem word_lower_ne_lbrack {c : Char} (h : isWordChar c = true) : pyLowerChar c ≠ '[' := by
  intro hl
  have := pyLowerChar_lbrack hl
  subst this
  simp [isWordChar, Char.isAlphanum, Char.isAlpha, Char.isDigit,
    Char.isUpper, Char.isLower] at h

theorem digitChar_isDigit {k : Nat} (h : k < 10) : (digitChar k).isDigit = true := by
  interval_cases k <;> decide

theorem digitVal_digitChar {k : Nat} (h : k < 10) : digitVal (digitChar k) = k := by
  interval_cases k <;> decide

/-! ### takeWhile / dropWhile / strip lemmas -/

theorem takeWhile_all {p : Char → Bool} {l : Str} (h : ∀ c ∈ l, p c = true) :
    l.takeWhile p = l :=
  List.takeWhile_eq_self_iff.mpr h

theorem dropWhile_all {p : Char → Bool} {l : Str} (h : ∀ c ∈ l, p c = true) :
    l.dropWhile p = [] :=
  List.dropWhile_eq_nil_iff.mpr h

theorem takeWhile_append_stop {p : Char → Bool} {l r : Str} {c : Char}
    (h : ∀ x ∈ l, p x = true) (hc : p c = false) :
    (l ++ c :: r).takeWhile p = l := by
  induction l with
  | nil => simp [List.takeWhile_cons, hc]
  | cons a t ih =>
    rw [List.cons_append, List.takeWhile_cons, h a (List.mem_cons_self a t)]
    simp only [if_true]
    rw [ih (fun x hx => h x (List.mem_cons_of_mem a hx))]

theorem dropWhile_append_stop {p : Char → Bool} {l r : Str} {c : Char}
    (h : ∀ x ∈ l, p x = true) (hc : p c = false) :
    (l ++ c :: r).dropWhile p = c :: r := by
  induction l with
  | nil => simp [List.dropWhile_cons, hc]
  | cons a t ih =>
    rw [List.cons_append, List.dropWhile_cons, h a (List.mem_cons_self a t)]
    simp only [if_true]
    exact ih (fun x hx => h x (List.mem_cons_of_mem a hx))

theorem pyStrip_no_space {l : Str} (h : ∀ c ∈ l, pyIsSpace c = false) :
    pyStrip l = l := by
  unfold pyStrip
  have h1 : l.dropWhile pyIsSpace = l := by
    cases l with
    | nil => rfl
    | cons a t => simp [List.dropWhile, h a (by simp)]
  rw [h1]
  have h2 : l.reverse.dropWhile pyIsSpace = l.reverse := by
    cases hr : l.reverse with
    | nil => rfl
    | cons a t =>
      have ha : a ∈ l := by
        have : a ∈ l.reverse := by rw [hr]; simp
        simpa using this
      simp [List.dropWhile, h a ha]
  rw [h2, List.reverse_reverse]

theorem pyStrip_ne_nil {c : Char} {t : Str} (h : pyIsSpace c = false) :
    pyStrip (c :: t) ≠ [] := by
  unfold pyStrip
  intro hmt
  have h1 : (c :: t).dropWhile pyIsSpace = c :: t := by simp [List.dropWhile, h]
  rw [h1] at hmt
  have h2 : (c :: t).reverse.dropWhile pyIsSpace = [] := by
    rcases he : (c :: t).reverse.dropWhile pyIsSpace with _ | _
    · rfl
    · rw [he] at hmt; simp at hmt
  rw [List.dropWhile_eq_nil_iff] at h2
  have hc : c ∈ (c :: t).reverse := by simp
  have := h2 c hc
  rw [h] at this
  exact Bool.false_ne_true this

/-! ### Digit-string lemmas -/

theorem natDigitsAux_fuel (fuel n : Nat) (h : n < fuel) :
    natDigitsAux fuel n = natDigits n := by
  induction fuel using Nat.strong_induction_on generalizing n with
  | _ fuel ih =>
    match fuel with
    | 0 => omega
    | f + 1 =>
      by_cases h10 : n < 10
      · rw [natDigitsAux, natDigits, natDigitsAux]
        simp [h10]
      · rw [natDigitsAux, natDigits, natDigitsAux]
        simp only [h10, if_false]
        have hd : n / 10 < n := Nat.div_lt_self (by omega) (by omega)
        rw [ih f (by omega) (n / 10) (by omega),
          ih n (by omega) (n / 10) (by omega)]

theorem natDigits_lt (n : Nat) (h : n < 10) : natDigits n = [digitChar n] := by
  rw [natDigits, natDigitsAux]
  simp [h]

theorem natDigits_ge (n : Nat) (h : ¬ n < 10) :
    natDigits n = natDigits (n / 10) ++ [digitChar (n % 10)] := by
  rw [natDigits, natDigitsAux]
  simp only [h, if_false]
  rw [natDigitsAux_fuel n (n / 10) (Nat.div_lt_self (by omega) (by omega))]

theorem natDigits_all_digit (n : Nat) : ∀ c ∈ natDigits n, c.isDigit = true := by
  induction n using Nat.strong_induction_on with
  | _ n ih =>
    by_cases h : n < 10
    · rw [natDigits_lt n h]
      intro c hc
      simp at hc
      subst hc
      exact digitChar_isDigit h
    · rw [natDigits_ge n h]
      intro c hc
      rcases List.mem_append.mp hc with h1 | h2
      · exact ih (n / 10) (Nat.div_lt_self (by omega) (by omega)) c h1
      · simp at h2
        subst h2
        exact digitChar_isDigit (Nat.mod_lt n (by omega))

theorem natDigits_ne_nil (n : Nat) : natDigits n ≠ [] := by
  by_cases h : n < 10
  · rw [natDigits_lt n h]; simp
  · rw [natDigits_ge n h]; simp

theorem digitsVal_append (l : Str) (c : Char) :
    digitsVal (l ++ [c]) = 10 * digitsVal l + digitVal c := by
  simp [digitsVal, List.foldl_append]

theorem digitsVal_natDigits (n : Nat) : digitsVal (natDigits n) = n := by
  induction n using Nat.strong_induction_on with
  | _ n ih =>
    by_cases h : n < 10
    · rw [natDigits_lt n h]
      simp [digitsVal, digitVal, List.foldl, digitVal_digitChar h]
      exact digitVal_digitChar h
    · rw [natDigits_ge n h, digitsVal_append,
        ih (n / 10) (Nat.div_lt_self (by omega) (by omega)),
        digitVal_digitChar (Nat.mod_lt n (by omega))]
      omega

theorem natDigits_length_two (n : Nat) (h1 : 10 ≤ n) (h2 : n < 100) :
    natDigits n = [digitChar (n / 10), digitChar (n % 10)] := by
  rw [natDigits_ge n (by omega), natDigits_lt (n / 10) (by omega)]
  rfl

theorem padNat_two (n : Nat) (h : n < 100) :
    padNat 2 n = [digitChar (n / 10), digitChar (n % 10)] := by
  by_cases h1 : n < 10
  · rw [padNat, natDigits_lt n h1]
    have : n / 10 = 0 := by omega
    simp [this, List.replicate]
    exact ⟨by decide, by rw [Nat.mod_eq_of_lt h1]⟩
  · rw [padNat, natDigits_length_two n (by omega) h]
    simp [List.replicate]

theorem natDigits_length_three (n : Nat) (h1 : 100 ≤ n) (h2 : n < 1000) :
    natDigits n = [digitChar (n / 100), digitChar (n / 10 % 10), digitChar (n % 10)] := by
  rw [natDigits_ge n (by omega), natDigits_length_two (n / 10) (by omega) (by omega)]
  have : n / 10 / 10 = n / 100 := by omega
  rw [this]
  rfl

theorem padNat_three (n : Nat) (h : n < 1000) :
    padNat 3 n = [digitChar (n / 100), digitChar (n / 10 % 10), digitChar (n % 10)] := by
  by_cases h1 : n < 10
  · rw [padNat, natDigits_lt n h1]
    have e1 : n / 100 = 0 := by omega
    have e2 : n / 10 % 10 = 0 := by omega
    simp [e1, e2, List.replicate]
    exact ⟨by decide, by rw [Nat.mod_eq_of_lt h1]⟩
  · by_cases h2 : n < 100
    · rw [padNat, natDigits_length_two n (by omega) h2]
      have e1 : n / 100 = 0 := by omega
      have e2 : n / 10 % 10 = n / 10 := by omega
      simp [e1, e2, List.replicate]
      rfl
    · rw [padNat, natDigits_length_three n (by omega) h]
      simp [List.replicate]

theorem padNat_six (n : Nat) (h : n < 1000000) :
    padNat 6 n = padNat 3 (n / 1000) ++ padNat 3 (n % 1000) := by
  by_cases h1 : n < 1000
  · have e1 : n / 1000 = 0 := by omega
    have e2 : n % 1000 = n := by omega
    rw [e1, e2, padNat_three n h1]
    rw [padNat]
    have hlen : (natDigits n).length ≤ 3 := by
      by_cases ha : n < 10
      · rw [natDigits_lt n ha]; simp
      · by_cases hb : n < 100
        · rw [natDigits_length_two n (by omega) hb]; simp
        · rw [natDigits_length_three n (by omega) h1]; simp
    have e3 : padNat 3 0 = ['0', '0', '0'] := by decide
    rw [e3]
    have e4 : (6 : Nat) - (natDigits n).length
        = 3 + (3 - (natDigits n).length) := by omega
    rw [e4, List.replicate_add]
    have e5 : List.replicate (3 - (natDigits n).length) '0' ++ natDigits n
        = padNat 3 n := rfl
    rw [List.append_assoc, e5, padNat_three n h1]
    rfl
  · -- n has at least four digits: peel the last three
    have key : ∀ m : Nat, 0 < m → ∀ b : Nat, b < 1000 →
        natDigits (m * 1000 + b) = natDigits m ++ padNat 3 b := by
      intro m hm b hb
      have s1 : natDigits (m * 1000 + b)
          = natDigits ((m * 1000 + b) / 10) ++ [digitChar ((m * 1000 + b) % 10)] :=
        natDigits_ge _ (by omega)
      have e1 : (m * 1000 + b) / 10 = m * 100 + b / 10 := by omega
      have s2 : natDigits (m * 100 + b / 10)
          = natDigits ((m * 100 + b / 10) / 10) ++ [digitChar ((m * 100 + b / 10) % 10)] :=
        natDigits_ge _ (by omega)
      have e2 : (m * 100 + b / 10) / 10 = m * 10 + b / 100 := by omega
      have s3 : natDigits (m * 10 + b / 100)
          = natDigits ((m * 10 + b / 100) / 10) ++ [digitChar ((m * 10 + b / 100) % 10)] :=
        natDigits_ge _ (by omega)
      have e3 : (m * 10 + b / 100) / 10 = m := by omega
      have e4 : (m * 10 + b / 100) % 10 = b / 100 := by omega
      have e5 : (m * 100 + b / 10) % 10 = b / 10 % 10 := by omega
      have e6 : (m * 1000 + b) % 10 = b % 10 := by omega
      rw [s1, e1, e6, s2, e2, e5, s3, e3, e4, padNat_three b hb]
      simp
    have hm : 0 < n / 1000 := by omega
    have hsplit : n = (n / 1000) * 1000 + n % 1000 := by omega
    have hnd : natDigits n = natDigits (n / 1000) ++ padNat 3 (n % 1000) := by
      conv_lhs => rw [hsplit]
      exact key (n / 1000) hm (n % 1000) (by omega)
    rw [padNat, hnd]
    have hlen3 : (padNat 3 (n % 1000)).length = 3 := by
      rw [padNat_three (n % 1000) (by omega)]; simp
    have hq : n / 1000 < 1000 := by omega
    rw [List.length_append, hlen3]
    have e7 : 6 - ((natDigits (n / 1000)).length + 3)
        = 3 - (natDigits (n / 1000)).length := by omega
    rw [e7, padNat, ← List.append_assoc]
    rfl

/-! ### Arithmetic lemmas about the time conversions -/

theorem int_emod_eq (a b : Int) : a.emod b = a % b := rfl

theorem milliseconds_to_time_nat (n : Nat) :
    milliseconds_to_time (n : Int)
      = ⟨n / 1000 % 86400 / 3600, n / 1000 % 86400 / 60 % 60,
         n / 1000 % 86400 % 60, n % 1000 * 1000⟩ := by
  unfold milliseconds_to_time
  simp only [int_emod_eq]
  have hf : (n : Int).fdiv 1000 = (n : Int) / 1000 := by
    rw [Int.fdiv_eq_ediv]
    decide
  rw [hf]
  have e1 : (((n : Int) / 1000 % 86400)).toNat = n / 1000 % 86400 := by omega
  have e2 : (((n : Int) % 1000) * 1000).toNat = n % 1000 * 1000 := by omega
  rw [e1, e2]

/-- Round trip `milliseconds_to_time ∘ timeMs` on valid millisecond-aligned
times. -/
theorem milliseconds_to_time_timeMs (t : PyTime) (hv : PyTimeValid t)
    (ha : MsAligned t) : milliseconds_to_time (timeMs t : Int) = t := by
  obtain ⟨h1, h2, h3, h4⟩ := hv
  rw [milliseconds_to_time_nat]
  unfold timeMs at *
  unfold MsAligned at ha
  obtain ⟨h, m, s, micro⟩ := t
  simp only at *
  have e0 : (((h * 60 + m) * 60 + s) * 1000 + micro / 1000) / 1000 % 86400
      = (h * 60 + m) * 60 + s := by
    have : (((h * 60 + m) * 60 + s) * 1000 + micro / 1000) / 1000
        = (h * 60 + m) * 60 + s := by omega
    rw [this]
    omega
  congr 1
  · rw [e0]; omega
  · rw [e0]; omega
  · rw [e0]; omega
  · omega

/-! ### The canonical `HH:MM:SS.mmm` form and its reparsing -/

theorem format_timestamp_explicit (t : PyTime) (hv : PyTimeValid t) :
    format_timestamp t
      = [digitChar (t.hour / 10), digitChar (t.hour % 10), ':',
         digitChar (t.minute / 10), digitChar (t.minute % 10), ':',
         digitChar (t.second / 10), digitChar (t.second % 10), '.',
         digitChar (t.microsecond / 100000), digitChar (t.microsecond / 10000 % 10),
         digitChar (t.microsecond / 1000 % 10)] := by
  obtain ⟨hh, hm, hs, hu⟩ := hv
  unfold format_timestamp
  simp only []
  rw [padNat_two _ (by omega), padNat_two _ (by omega), padNat_two _ (by omega),
    padNat_six _ hu, padNat_three _ (by omega), padNat_three _ (by omega)]
  simp only [List.cons_append, List.nil_append]
  have e1 : t.microsecond / 1000 / 100 = t.microsecond / 100000 := by omega
  have e2 : t.microsecond / 1000 / 10 % 10 = t.microsecond / 10000 % 10 := by omega
  rw [e1, e2]
  rfl

theorem digitsVal_two (a b : Nat) (ha : a < 10) (hb : b < 10) :
    digitsVal [digitChar a, digitChar b] = 10 * a + b := by
  simp [digitsVal, List.foldl, digitVal_digitChar ha, digitVal_digitChar hb]

theorem digitsVal_three (a b c : Nat) (ha : a < 10) (hb : b < 10) (hc : c < 10) :
    digitsVal [digitChar a, digitChar b, digitChar c] = 100 * a + 10 * b + c := by
  simp [digitsVal, List.foldl, digitVal_digitChar ha, digitVal_digitChar hb,
    digitVal_digitChar hc]
  omega

theorem tpMatch_canonical (h m s ms : Nat)
    (hh : h < 100) (hm : m < 60) (hs : s < 60) (hms : ms < 1000) :
    tpMatch [digitChar (h / 10), digitChar (h % 10), ':',
             digitChar (m / 10), digitChar (m % 10), ':',
             digitChar (s / 10), digitChar (s % 10), '.',
             digitChar (ms / 100), digitChar (ms / 10 % 10), digitChar (ms % 10)]
      = some (h, m, s, ms) := by
  have dh1 := digitChar_isDigit (show h / 10 < 10 by omega)
  have dh2 := digitChar_isDigit (show h % 10 < 10 by omega)
  have dm1 := digitChar_isDigit (show m / 10 < 10 by omega)
  have dm2 := digitChar_isDigit (show m % 10 < 10 by omega)
  have ds1 := digitChar_isDigit (show s / 10 < 10 by omega)
  have ds2 := digitChar_isDigit (show s % 10 < 10 by omega)
  have dt1 := digitChar_isDigit (show ms / 100 < 10 by omega)
  have dt2 := digitChar_isDigit (show ms / 10 % 10 < 10 by omega)
  have dt3 := digitChar_isDigit (show ms % 10 < 10 by omega)
  have hhours : tpHours [digitChar (h / 10), digitChar (h % 10), ':',
      digitChar (m / 10), digitChar (m % 10), ':',
      digitChar (s / 10), digitChar (s % 10), '.',
      digitChar (ms / 100), digitChar (ms / 10 % 10), digitChar (ms % 10)]
      = some (h, [digitChar (m / 10), digitChar (m % 10), ':',
          digitChar (s / 10), digitChar (s % 10), '.',
          digitChar (ms / 100), digitChar (ms / 10 % 10), digitChar (ms % 10)]) := by
    have htake := takeWhile_append_stop
      (l := [digitChar (h / 10), digitChar (h % 10)])
      (r := [digitChar (m / 10), digitChar (m % 10), ':',
        digitChar (s / 10), digitChar (s % 10), '.',
        digitChar (ms / 100), digitChar (ms / 10 % 10), digitChar (ms % 10)])
      (c := ':') (p := Char.isDigit)
      (by intro x hx; simp at hx; rcases hx with h1 | h1 <;> subst h1 <;> assumption)
      (by decide)
    have hdrop := dropWhile_append_stop
      (l := [digitChar (h / 10), digitChar (h % 10)])
      (r := [digitChar (m / 10), digitChar (m % 10), ':',
        digitChar (s / 10), digitChar (s % 10), '.',
        digitChar (ms / 100), digitChar (ms / 10 % 10), digitChar (ms % 10)])
      (c := ':') (p := Char.isDigit)
      (by intro x hx; simp at hx; rcases hx with h1 | h1 <;> subst h1 <;> assumption)
      (by decide)
    simp only [List.cons_append, List.nil_append] at htake hdrop
    unfold tpHours
    rw [htake, hdrop]
    show some (digitsVal [digitChar (h / 10), digitChar (h % 10)], _) = _
    rw [digitsVal_two _ _ (by omega) (by omega)]
    have e : 10 * (h / 10) + h % 10 = h := by omega
    rw [e]
  have hmins : tpMinutes [digitChar (m / 10), digitChar (m % 10), ':',
      digitChar (s / 10), digitChar (s % 10), '.',
      digitChar (ms / 100), digitChar (ms / 10 % 10), digitChar (ms % 10)]
      = some (m, [digitChar (s / 10), digitChar (s % 10), '.',
          digitChar (ms / 100), digitChar (ms / 10 % 10), digitChar (ms % 10)]) := by
    show (if (digitChar (m / 10)).isDigit then _ else none) = _
    rw [dm1]
    simp only [if_true, dm2]
    show some (10 * digitVal (digitChar (m / 10)) + digitVal (digitChar (m % 10)), _) = _
    rw [digitVal_digitChar (show m / 10 < 10 by omega),
      digitVal_digitChar (show m % 10 < 10 by omega)]
    have e : 10 * (m / 10) + m % 10 = m := by omega
    rw [e]
  have hsecs : tpSeconds [digitChar (s / 10), digitChar (s % 10), '.',
      digitChar (ms / 100), digitChar (ms / 10 % 10), digitChar (ms % 10)]
      = some (s, '.' :: [digitChar (ms / 100), digitChar (ms / 10 % 10), digitChar (ms % 10)]) := by
    show (if (digitChar (s / 10)).isDigit then _ else none) = _
    rw [ds1]
    simp only [if_true, ds2]
    show some (10 * digitVal (digitChar (s / 10)) + digitVal (digitChar (s % 10)), _) = _
    rw [digitVal_digitChar (show s / 10 < 10 by omega),
      digitVal_digitChar (show s % 10 < 10 by omega)]
    have e : 10 * (s / 10) + s % 10 = s := by omega
    rw [e]
  have hmsv : tpMillis ('.' :: [digitChar (ms / 100), digitChar (ms / 10 % 10), digitChar (ms % 10)])
      = ms := by
    show digitsVal (([digitChar (ms / 100), digitChar (ms / 10 % 10),
      digitChar (ms % 10)].takeWhile Char.isDigit).take 3) = ms
    rw [takeWhile_all (by
      intro x hx; simp at hx; rcases hx with h1 | h1 | h1 <;> subst h1 <;> assumption)]
    rw [List.take_of_length_le (by simp)]
    rw [digitsVal_three _ _ _ (by omega) (by omega) (by omega)]
    omega
  unfold tpMatch
  rw [hhours]
  show (match tpMinutes [digitChar (m / 10), digitChar (m % 10), ':',
      digitChar (s / 10), digitChar (s % 10), '.',
      digitChar (ms / 100), digitChar (ms / 10 % 10), digitChar (ms % 10)] with
    | some (m', rest2) =>
      match tpSeconds rest2 with
      | some (sec, rest3) => some (h, m', sec, tpMillis rest3)
      | none =>
        match tpMinutes [digitChar (h / 10), digitChar (h % 10), ':',
            digitChar (m / 10), digitChar (m % 10), ':',
            digitChar (s / 10), digitChar (s % 10), '.',
            digitChar (ms / 100), digitChar (ms / 10 % 10), digitChar (ms % 10)] with
        | some (m', rest2') =>
          match tpSeconds rest2' with
          | some (sec', rest3') => some (0, m', sec', tpMillis rest3')
          | none => none
        | none => none
    | none =>
      match tpMinutes [digitChar (h / 10), digitChar (h % 10), ':',
          digitChar (m / 10), digitChar (m % 10), ':',
          digitChar (s / 10), digitChar (s % 10), '.',
          digitChar (ms / 100), digitChar (ms / 10 % 10), digitChar (ms % 10)] with
      | some (m', rest2') =>
        match tpSeconds rest2' with
        | some (sec', rest3') => some (0, m', sec', tpMillis rest3')
        | none => none
      | none => none) = some (h, m, s, ms)
  rw [hmins]
  show (match tpSeconds [digitChar (s / 10), digitChar (s % 10), '.',
      digitChar (ms / 100), digitChar (ms / 10 % 10), digitChar (ms % 10)] with
    | some (sec, rest3) => some (h, m, sec, tpMillis rest3)
    | none =>
      match tpMinutes [digitChar (h / 10), digitChar (h % 10), ':',
          digitChar (m / 10), digitChar (m % 10), ':',
          digitChar (s / 10), digitChar (s % 10), '.',
          digitChar (ms / 100), digitChar (ms / 10 % 10), digitChar (ms % 10)] with
      | some (m', rest2') =>
        match tpSeconds rest2' with
        | some (sec', rest3') => some (0, m', sec', tpMillis rest3')
        | none => none
      | none => none) = some (h, m, s, ms)
  rw [hsecs]
  show some (h, m, s, tpMillis ('.' :: [digitChar (ms / 100), digitChar (ms / 10 % 10),
    digitChar (ms % 10)])) = some (h, m, s, ms)
  rw [hmsv]

/-- On a valid time, `time_to_milliseconds` succeeds and returns
`timeMs`: hours, minutes, seconds and whole milliseconds recombined. -/
theorem time_to_milliseconds_valid (t : PyTime) (hv : PyTimeValid t) :
    time_to_milliseconds t = some ((timeMs t : Nat) : Int) := by
  unfold time_to_milliseconds timestamp_to_milliseconds
  rw [format_timestamp_explicit t hv]
  obtain ⟨hh, hm, hs, hu⟩ := hv
  have e1 : t.microsecond / 100000 = t.microsecond / 1000 / 100 := by omega
  have e2 : t.microsecond / 10000 % 10 = t.microsecond / 1000 / 10 % 10 := by omega
  have e3 : t.microsecond / 1000 % 10 = t.microsecond / 1000 % 10 := rfl
  rw [e1, e2]
  rw [tpMatch_canonical t.hour t.minute t.second (t.microsecond / 1000)
    (by omega) hm hs (by omega)]
  unfold timeMs
  show some _ = some _
  congr 1

/-! ### `int(str(n)) = n` for the dumped millisecond values -/

theorem digit_not_space {c : Char} (h : c.isDigit = true) : pyIsSpace c = false :=
  word_not_space (digit_word h)

theorem digit_not_lb {c : Char} (h : c.isDigit = true) : isLineBreakChar c = false :=
  word_not_lb (digit_word h)

theorem pyIntDigits_all_digit (l : Str) (acc : Nat)
    (h : ∀ c ∈ l, c.isDigit = true) :
    pyIntDigits acc l = some (l.foldl (fun a c => 10 * a + digitVal c) acc) := by
  induction l generalizing acc with
  | nil => rfl
  | cons c t ih =>
    have hc : c.isDigit = true := h c (List.mem_cons_self c t)
    have hne : c ≠ '_' := by
      intro he; subst he; simp [Char.isDigit] at hc
    have harm : pyIntDigits acc (c :: t) = pyIntDigits (10 * acc + digitVal c) t := by
      rw [pyIntDigits.eq_def]
      split <;> simp_all
    rw [harm, ih (10 * acc + digitVal c) (fun x hx => h x (List.mem_cons_of_mem c hx))]
    rfl

theorem pyInt_natDigits (n : Nat) : pyInt (natDigits n) = some (n : Int) := by
  unfold pyInt
  rw [pyStrip_no_space (fun c hc => digit_not_space (natDigits_all_digit n c hc))]
  obtain ⟨c, t, hct⟩ : ∃ c t, natDigits n = c :: t := by
    rcases hnd : natDigits n with _ | ⟨c, t⟩
    · exact absurd hnd (natDigits_ne_nil n)
    · exact ⟨c, t, rfl⟩
  have hc : c.isDigit = true := natDigits_all_digit n c (by rw [hct]; simp)
  have ht : ∀ x ∈ t, x.isDigit = true := fun x hx =>
    natDigits_all_digit n x (by rw [hct]; simp [hx])
  rw [hct]
  have harm : pyIntSigned (c :: t)
      = (pyIntDigits (digitVal c) t).map (fun k => (k : Int)) := by
    have hminus : c ≠ '-' := by intro he; subst he; simp [Char.isDigit] at hc
    have hplus : c ≠ '+' := by intro he; subst he; simp [Char.isDigit] at hc
    rw [pyIntSigned.eq_def]
    split <;> simp_all
  rw [harm, pyIntDigits_all_digit t (digitVal c) ht]
  have : (c :: t).foldl (fun a x => 10 * a + digitVal x) 0
      = t.foldl (fun a x => 10 * a + digitVal x) (digitVal c) := by
    simp [List.foldl]
  have hval : t.foldl (fun a x => 10 * a + digitVal x) (digitVal c) = n := by
    have hdv : digitsVal (natDigits n) = n := digitsVal_natDigits n
    rw [hct] at hdv
    unfold digitsVal at hdv
    simpa [List.foldl] using hdv
  rw [hval]
  rfl

/-! ### `str.splitlines` structure lemmas -/

theorem splitlinesAux_cons_keep (a : Char) (t acc : Str)
    (ha : isLineBreakChar a = false) :
    splitlinesAux (a :: t) acc = splitlinesAux t (a :: acc) := by
  have hr : a ≠ '\r' := by
    intro he; subst he; simp [isLineBreakChar, lineBreakChars] at ha
  rw [splitlinesAux.eq_def]
  split <;> simp_all

theorem splitlinesAux_cons_break (a : Char) (t acc : Str)
    (ha : isLineBreakChar a = true) (hr : a ≠ '\r') :
    splitlinesAux (a :: t) acc = acc.reverse :: splitlinesAux t [] := by
  rw [splitlinesAux.eq_def]
  split <;> simp_all

theorem splitlinesAux_newline (l : Str) (s : Str) (acc : Str)
    (h : ∀ c ∈ l, isLineBreakChar c = false) :
    splitlinesAux (l ++ '\n' :: s) acc = (acc.reverse ++ l) :: splitlinesAux s [] := by
  induction l generalizing acc with
  | nil =>
    rw [List.nil_append, splitlinesAux_cons_break '\n' s acc (by decide) (by decide)]
    simp
  | cons a t ih =>
    rw [List.cons_append, splitlinesAux_cons_keep a _ acc (h a (List.mem_cons_self a t)),
      ih (a :: acc) (fun x hx => h x (List.mem_cons_of_mem a hx))]
    simp

theorem splitlinesAux_last (l : Str) (acc : Str) (hne : acc.reverse ++ l ≠ [])
    (h : ∀ c ∈ l, isLineBreakChar c = false) :
    splitlinesAux l acc = [acc.reverse ++ l] := by
  induction l generalizing acc with
  | nil =>
    rw [splitlinesAux.eq_def]
    have hie : acc.isEmpty = false := by
      rcases acc with _ | ⟨a, t⟩
      · simp at hne
      · simp [List.isEmpty]
    simp [hie]
  | cons a t ih =>
    rw [splitlinesAux_cons_keep a t acc (h a (List.mem_cons_self a t)),
      ih (a :: acc) (by simp) (fun x hx => h x (List.mem_cons_of_mem a hx))]
    simp

theorem splitlines_newline (l s : Str) (h : ∀ c ∈ l, isLineBreakChar c = false) :
    splitlines (l ++ '\n' :: s) = l :: splitlines s := by
  unfold splitlines
  rw [splitlinesAux_newline l s [] h]
  simp

theorem splitlines_single (l : Str) (hne : l ≠ [])
    (h : ∀ c ∈ l, isLineBreakChar c = false) : splitlines l = [l] := by
  unfold splitlines
  rw [splitlinesAux_last l [] (by simpa using hne) h]
  simp

theorem splitlines_nil : splitlines [] = [] := rfl

theorem splitlinesAux_ne_nil (s : Str) (acc : Str) (hs : s ≠ []) :
    splitlinesAux s acc ≠ [] := by
  induction s generalizing acc with
  | nil => exact absurd rfl hs
  | cons a t ih =>
    by_cases hlb : isLineBreakChar a = false
    · rw [splitlinesAux_cons_keep a t acc hlb]
      rcases t with _ | ⟨b, u⟩
      · rw [splitlinesAux.eq_def]
        simp
      · exact ih (a :: acc) (by simp)
    · have hlb2 : isLineBreakChar a = true := by
        rcases hb : isLineBreakChar a
        · exact absurd hb hlb
        · rfl
      by_cases hr : a = '\r'
      · subst hr
        rcases t with _ | ⟨b, u⟩
        · show splitlinesAux ['\r'] acc ≠ []
          have : splitlinesAux ['\r'] acc = acc.reverse :: splitlinesAux [] [] := rfl
          rw [this]
          simp
        · by_cases hb : b = '\n'
          · subst hb
            show splitlinesAux ('\r' :: '\n' :: u) acc ≠ []
            have : splitlinesAux ('\r' :: '\n' :: u) acc
                = acc.reverse :: splitlinesAux u [] := rfl
            rw [this]
            simp
          · have hstep : splitlinesAux ('\r' :: b :: u) acc
                = acc.reverse :: splitlinesAux (b :: u) [] := by
              rw [splitlinesAux.eq_def]
              split <;> simp_all
              rename_i hconj
              obtain ⟨h1, h2⟩ := hconj
              subst h1
              subst h2
              intro hlf
              simp [isLineBreakChar, lineBreakChars] at hlf
            rw [hstep]
            simp
      · rw [splitlinesAux_cons_break a t acc hlb2 hr]
        simp

theorem splitlines_ne_nil (s : Str) (hs : s ≠ []) : splitlines s ≠ [] :=
  splitlinesAux_ne_nil s [] hs

/-! ### `kvMatch`, `isChapterLine` and `processLine` step lemmas -/

theorem kvMatch_word (k v : Str) (hk : WordStr k) :
    kvMatch (k ++ '=' :: v) = some (k, v) := by
  obtain ⟨hne, hw⟩ := hk
  unfold kvMatch
  rw [takeWhile_append_stop hw (by decide), dropWhile_append_stop hw (by decide)]
  rcases k with _ | ⟨c, t⟩
  · exact absurd rfl hne
  · rfl

theorem isChapterLine_cons_false (a : Char) (l : Str) (ha : pyLowerChar a ≠ '[') :
    isChapterLine (a :: l) = false := by
  unfold isChapterLine pyLower
  rw [List.map_cons]
  show (pyLowerChar a == '[' && (List.map pyLowerChar l == "chapter]".data)) = false
  rw [beq_eq_false_iff_ne.mpr ha]
  exact Bool.false_and _

theorem processLine_tag (i : Nat) (s : ParseState) (k v : Str)
    (hk : WordStr k) (hp : s.is_parsing_chapter = false) :
    processLine i (k ++ '=' :: v) s = .ok { s with tags := s.tags ++ [(k, v)] } := by
  obtain ⟨c, t, rfl⟩ : ∃ c t, k = c :: t := by
    rcases k with _ | ⟨c, t⟩
    · exact absurd rfl hk.1
    · exact ⟨c, t, rfl⟩
  have hcw : isWordChar c = true := hk.2 c (List.mem_cons_self c t)
  unfold processLine
  rw [if_neg (by
    intro hlen
    exact pyStrip_ne_nil (word_not_space hcw) (List.length_eq_zero.mp hlen))]
  rw [List.cons_append]
  rw [if_neg (by
    rw [isChapterLine_cons_false c _ (word_lower_ne_lbrack hcw)]
    exact Bool.false_ne_true)]
  rw [← List.cons_append, kvMatch_word (c :: t) v hk]
  simp only [hp, Bool.not_false, if_true]
  rw [pyStrip_no_space (fun x hx => word_not_space (hk.2 x hx))]

theorem processLine_marker_open (i : Nat) (s : ParseState)
    (hp : s.is_parsing_chapter = false) :
    processLine i "[CHAPTER]".data s = .ok { s with is_parsing_chapter := true } := by
  unfold processLine
  rw [if_neg (by decide), if_pos (by decide), if_neg (by simp [hp])]

theorem processLine_marker_complete (i : Nat) (s : ParseState)
    (hp : s.is_parsing_chapter = true) (tl : Str) (st et : PyTime)
    (ht : s.title = some tl) (htne : tl ≠ [])
    (hst : s.start_time = some st) (het : s.end_time = some et) :
    processLine i "[CHAPTER]".data s
      = .ok { tags := s.tags,
              chapters := s.chapters ++ [⟨tl, st, et, s.description⟩],
              is_parsing_chapter := true,
              start_time := none, end_time := none, title := none, description := none } := by
  unfold processLine
  rw [if_neg (by decide), if_pos (by decide), if_pos (by simp [hp])]
  have hcond : (truthyOptStr s.title && s.start_time.isSome && s.end_time.isSome) = true := by
    rw [ht, hst, het]
    simp [truthyOptStr, List.isEmpty_iff, htne]
  rw [if_neg (by simp [hcond])]
  unfold build_media_chapter
  rw [ht, hst, het]
  simp only [if_neg htne]

theorem processLine_marker_incomplete (i : Nat) (s : ParseState)
    (hp : s.is_parsing_chapter = true)
    (hinc : ¬(truthyOptStr s.title && s.start_time.isSome && s.end_time.isSome) = true) :
    processLine i "[CHAPTER]".data s = .error (.incompleteChapter i) := by
  unfold processLine
  have hx : (truthyOptStr s.title && s.start_time.isSome && s.end_time.isSome) = false := by
    cases hval : (truthyOptStr s.title && s.start_time.isSome && s.end_time.isSome) with
    | false => rfl
    | true => exact absurd hval hinc
  rw [if_neg (by decide), if_pos (by decide), if_pos (by simp [hp]),
    if_pos (by simp [hx])]

theorem processLine_timebase (i : Nat) (s : ParseState)
    (hp : s.is_parsing_chapter = true) :
    processLine i "TIMEBASE=1/1000".data s = .ok s := by
  have hred : processLine i "TIMEBASE=1/1000".data s
      = if !s.is_parsing_chapter
        then .ok { s with tags := s.tags ++ [("TIMEBASE".data, "1/1000".data)] }
        else .ok s := rfl
  rw [hred, hp]
  rfl

theorem processLine_start (i : Nat) (s : ParseState) (n : Nat)
    (hp : s.is_parsing_chapter = true) :
    processLine i ("START=".data ++ natDigits n) s
      = .ok { s with start_time := some (milliseconds_to_time (n : Int)) } := by
  have hred : processLine i ("START=".data ++ natDigits n) s
      = if !s.is_parsing_chapter
        then .ok { s with tags := s.tags ++ [("START".data, natDigits n)] }
        else match pyInt (natDigits n) with
          | some k => .ok { s with start_time := some (milliseconds_to_time k) }
          | none => .error .badInt := by
    unfold processLine
    rw [if_neg (by
      intro hlen
      exact pyStrip_ne_nil (by decide) (List.length_eq_zero.mp hlen))]
    rw [if_neg (by
      rw [show ("START=".data ++ natDigits n) = 'S' :: ("TART=".data ++ natDigits n) from rfl]
      rw [isChapterLine_cons_false 'S' _ (by decide)]
      exact Bool.false_ne_true)]
    rw [show ("START=".data ++ natDigits n) = "START".data ++ '=' :: natDigits n from rfl]
    rw [kvMatch_word "START".data (natDigits n) ⟨by decide, by decide⟩]
    rfl
  rw [hred, hp, pyInt_natDigits n]
  rfl

theorem processLine_end (i : Nat) (s : ParseState) (n : Nat)
    (hp : s.is_parsing_chapter = true) :
    processLine i ("END=".data ++ natDigits n) s
      = .ok { s with end_time := some (milliseconds_to_time (n : Int)) } := by
  have hred : processLine i ("END=".data ++ natDigits n) s
      = if !s.is_parsing_chapter
        then .ok { s with tags := s.tags ++ [("END".data, natDigits n)] }
        else match pyInt (natDigits n) with
          | some k => .ok { s with end_time := some (milliseconds_to_time k) }
          | none => .error .badInt := by
    unfold processLine
    rw [if_neg (by
      intro hlen
      exact pyStrip_ne_nil (by decide) (List.length_eq_zero.mp hlen))]
    rw [if_neg (by
      rw [show ("END=".data ++ natDigits n) = 'E' :: ("ND=".data ++ natDigits n) from rfl]
      rw [isChapterLine_cons_false 'E' _ (by decide)]
      exact Bool.false_ne_true)]
    rw [show ("END=".data ++ natDigits n) = "END".data ++ '=' :: natDigits n from rfl]
    rw [kvMatch_word "END".data (natDigits n) ⟨by decide, by decide⟩]
    rfl
  rw [hred, hp, pyInt_natDigits n]
  rfl

theorem processLine_title (i : Nat) (s : ParseState) (t : Str)
    (hp : s.is_parsing_chapter = true) :
    processLine i ("title=".data ++ t) s = .ok { s with title := some t } := by
  have hred : processLine i ("title=".data ++ t) s
      = if !s.is_parsing_chapter
        then .ok { s with tags := s.tags ++ [("title".data, t)] }
        else .ok { s with title := some t } := by
    unfold processLine
    rw [if_neg (by
      intro hlen
      exact pyStrip_ne_nil (by decide) (List.length_eq_zero.mp hlen))]
    rw [if_neg (by
      rw [show ("title=".data ++ t) = 't' :: ("itle=".data ++ t) from rfl]
      rw [isChapterLine_cons_false 't' _ (by decide)]
      exact Bool.false_ne_true)]
    rw [show ("title=".data ++ t) = "title".data ++ '=' :: t from rfl]
    rw [kvMatch_word "title".data t ⟨by decide, by decide⟩]
    rfl
  rw [hred, hp]
  rfl

theorem processLine_description (i : Nat) (s : ParseState) (d : Str)
    (hp : s.is_parsing_chapter = true) :
    processLine i ("description=".data ++ d) s = .ok { s with description := some d } := by
  have hred : processLine i ("description=".data ++ d) s
      = if !s.is_parsing_chapter
        then .ok { s with tags := s.tags ++ [("description".data, d)] }
        else .ok { s with description := some d } := by
    unfold processLine
    rw [if_neg (by
      intro hlen
      exact pyStrip_ne_nil (by decide) (List.length_eq_zero.mp hlen))]
    rw [if_neg (by
      rw [show ("description=".data ++ d) = 'd' :: ("escription=".data ++ d) from rfl]
      rw [isChapterLine_cons_false 'd' _ (by decide)]
      exact Bool.false_ne_true)]
    rw [show ("description=".data ++ d) = "description".data ++ '=' :: d from rfl]
    rw [kvMatch_word "description".data d ⟨by decide, by decide⟩]
    rfl
  rw [hred, hp]
  rfl

theorem processLine_empty (i : Nat) (s : ParseState) :
    processLine i [] s = .ok s := rfl

theorem runLines_cons (i : Nat) (a : Str) (t : List Str) (s : ParseState) :
    runLines i (a :: t) s
      = match processLine i a s with
        | .ok s' => runLines (i + 1) t s'
        | .error e => .error e := rfl

theorem runLines_append (i : Nat) (l1 l2 : List Str) (s : ParseState) :
    runLines i (l1 ++ l2) s
      = match runLines i l1 s with
        | .ok s' => runLines (i + l1.length) l2 s'
        | .error e => .error e := by
  induction l1 generalizing i s with
  | nil => simp [runLines]
  | cons a t ih =>
    rw [List.cons_append, runLines_cons, runLines_cons]
    cases hpl : processLine i a s with
    | error e => rfl
    | ok s' =>
      show runLines (i + 1) (t ++ l2) s'
          = match runLines (i + 1) t s' with
            | .ok s2 => runLines (i + (a :: t).length) l2 s2
            | .error e => .error e
      rw [ih (i + 1) s']
      simp only [List.length_cons,
        show i + 1 + t.length = i + (t.length + 1) from by omega]

/-! ### The line structure of `dumps_ffmetadata` output -/

def tagLine (kv : Str × Str) : Str := kv.1 ++ '=' :: kv.2

/-- The lines of a chapter block below the `[CHAPTER]` marker. -/
def bodyLines (c : MediaChapter) : List Str :=
  ["TIMEBASE=1/1000".data,
   "START=".data ++ natDigits (timeMs c.start_time),
   "END=".data ++ natDigits (timeMs c.end_time),
   "title=".data ++ c.title] ++
  (if truthyDesc c.description then [("description=".data ++ c.description.getD [])] else [])

def blockLines (c : MediaChapter) : List Str := "[CHAPTER]".data :: bodyLines c

/-- Lines of the second and later chapter blocks, each preceded by the
blank separator line. -/
def tailSection : List MediaChapter → List Str
  | [] => []
  | c :: rest => ([] : Str) :: "[CHAPTER]".data :: (bodyLines c ++ tailSection rest)

def sectionLines : List MediaChapter → List Str
  | [] => []
  | c :: rest => "[CHAPTER]".data :: (bodyLines c ++ tailSection rest)

/-- The description value reconstructed by a round trip. -/
def parsedDesc (c : MediaChapter) : Option Str :=
  if truthyDesc c.description then some (c.description.getD []) else none

theorem parsedDesc_eq (c : MediaChapter) : parsedDesc c = (descNorm c).description := by
  unfold parsedDesc descNorm truthyDesc
  rcases c.description with _ | d
  · rfl
  · by_cases hd : d = []
    · subst hd; rfl
    · simp [hd, List.isEmpty_iff]

theorem descNorm_fields (c : MediaChapter) :
    (descNorm c).title = c.title ∧ (descNorm c).start_time = c.start_time ∧
    (descNorm c).end_time = c.end_time := ⟨rfl, rfl, rfl⟩

theorem intStr_ofNat (k : Nat) : intStr (k : Int) = natDigits k := by
  unfold intStr
  rw [if_neg (by omega)]
  simp

theorem dumps_chapter_eq (c : MediaChapter) (hc : WFChapter c) :
    dumps_ffmetadata_chapter c = some (joinSep ['\n'] (blockLines c)) := by
  obtain ⟨_, _, hsv, _, hev, _, _⟩ := hc
  unfold dumps_ffmetadata_chapter
  rw [time_to_milliseconds_valid _ hsv, time_to_milliseconds_valid _ hev]
  simp only [intStr_ofNat]
  unfold blockLines bodyLines
  by_cases hd : truthyDesc c.description
  · rw [if_pos hd, if_pos hd]
    rfl
  · rw [if_neg hd, if_neg hd]
    rfl

theorem mapMOptionChapter_eq (chapters : List MediaChapter)
    (h : ∀ c ∈ chapters, WFChapter c) :
    mapMOptionChapter chapters
      = some (chapters.map (fun c => joinSep ['\n'] (blockLines c))) := by
  induction chapters with
  | nil => rfl
  | cons c rest ih =>
    unfold mapMOptionChapter
    rw [dumps_chapter_eq c (h c (List.mem_cons_self c rest)),
      ih (fun x hx => h x (List.mem_cons_of_mem c hx))]
    rfl

theorem dumps_eq (m : MediaMetadata) (h : ∀ c ∈ m.chapters, WFChapter c) :
    dumps_ffmetadata m
      = some (joinSep ['\n']
          [";FFMETADATA".data,
           joinSep ['\n'] (m.tags.map tagLine),
           [],
           joinSep ['\n', '\n'] (m.chapters.map (fun c => joinSep ['\n'] (blockLines c)))]) := by
  unfold dumps_ffmetadata
  rw [mapMOptionChapter_eq m.chapters h]
  rfl

/-! ### Running the parser over the dumped lines -/

theorem runLines_step (i : Nat) (a : Str) (t : List Str) (s s' : ParseState)
    (h : processLine i a s = .ok s') :
    runLines i (a :: t) s = runLines (i + 1) t s' := by
  rw [runLines_cons, h]

theorem runLines_nil (i : Nat) (s : ParseState) : runLines i [] s = .ok s := rfl

theorem runLines_tags (tags : List (Str × Str)) (hwf : ∀ kv ∈ tags, WFTag kv)
    (i : Nat) (s : ParseState) (hp : s.is_parsing_chapter = false) :
    runLines i (tags.map tagLine) s = .ok { s with tags := s.tags ++ tags } := by
  induction tags generalizing i s with
  | nil =>
    rw [List.map_nil, runLines_nil]
    simp
  | cons kv rest ih =>
    rw [List.map_cons]
    simp only [tagLine]
    rw [runLines_step _ _ _ _ _
      (processLine_tag i s kv.1 kv.2 (hwf kv (List.mem_cons_self kv rest)).1 hp)]
    rw [ih (fun x hx => hwf x (List.mem_cons_of_mem kv hx)) (i + 1) _ (by exact hp)]
    have he : (s.tags ++ [(kv.1, kv.2)]) ++ rest = s.tags ++ kv :: rest := by simp
    simp only []
    rw [he]

theorem runLines_body (c : MediaChapter) (hc : WFChapter c) (i : Nat) (s : ParseState)
    (hp : s.is_parsing_chapter = true) (hd : s.description = none) :
    runLines i (bodyLines c) s
      = .ok { s with start_time := some c.start_time, end_time := some c.end_time,
                     title := some c.title, description := parsedDesc c } := by
  obtain ⟨htne, _, hsv, hsa, hev, hea, _⟩ := hc
  unfold bodyLines
  by_cases hdesc : truthyDesc c.description
  · rw [if_pos hdesc]
    rw [show (["TIMEBASE=1/1000".data,
        "START=".data ++ natDigits (timeMs c.start_time),
        "END=".data ++ natDigits (timeMs c.end_time),
        "title=".data ++ c.title] ++ ["description=".data ++ c.description.getD []])
      = "TIMEBASE=1/1000".data ::
        ("START=".data ++ natDigits (timeMs c.start_time)) ::
        ("END=".data ++ natDigits (timeMs c.end_time)) ::
        ("title=".data ++ c.title) ::
        ["description=".data ++ c.description.getD []] from rfl]
    rw [runLines_step _ _ _ _ _ (processLine_timebase i s hp)]
    rw [runLines_step _ _ _ _ _ (processLine_start (i + 1) s (timeMs c.start_time) hp)]
    rw [runLines_step _ _ _ _ _ (processLine_end (i + 2) _ (timeMs c.end_time) (by exact hp))]
    rw [runLines_step _ _ _ _ _ (processLine_title (i + 3) _ c.title (by exact hp))]
    rw [runLines_step _ _ _ _ _
      (processLine_description (i + 4) _ (c.description.getD []) (by exact hp))]
    rw [runLines_nil]
    rw [milliseconds_to_time_timeMs _ hsv hsa, milliseconds_to_time_timeMs _ hev hea]
    unfold parsedDesc
    rw [if_pos hdesc]
  · rw [if_neg hdesc]
    rw [show (["TIMEBASE=1/1000".data,
        "START=".data ++ natDigits (timeMs c.start_time),
        "END=".data ++ natDigits (timeMs c.end_time),
        "title=".data ++ c.title] ++ [])
      = "TIMEBASE=1/1000".data ::
        ("START=".data ++ natDigits (timeMs c.start_time)) ::
        ("END=".data ++ natDigits (timeMs c.end_time)) ::
        ["title=".data ++ c.title] from by simp]
    rw [runLines_step _ _ _ _ _ (processLine_timebase i s hp)]
    rw [runLines_step _ _ _ _ _ (processLine_start (i + 1) s (timeMs c.start_time) hp)]
    rw [runLines_step _ _ _ _ _ (processLine_end (i + 2) _ (timeMs c.end_time) (by exact hp))]
    rw [runLines_step _ _ _ _ _ (processLine_title (i + 3) _ c.title (by exact hp))]
    rw [runLines_nil]
    rw [milliseconds_to_time_timeMs _ hsv hsa, milliseconds_to_time_timeMs _ hev hea]
    unfold parsedDesc
    rw [if_neg hdesc]
    rw [show s.description = (none : Option Str) from hd]

theorem chapter_build_descNorm (prev : MediaChapter) (hne : prev.title ≠ []) :
    (⟨prev.title, prev.start_time, prev.end_time, parsedDesc prev⟩ : MediaChapter)
      = descNorm prev := by
  rw [parsedDesc_eq]
  rfl

theorem runLines_tailSection (rest : List MediaChapter) (prev : MediaChapter)
    (hprev : WFChapter prev) (hrest : ∀ c ∈ rest, WFChapter c)
    (i : Nat) (s : ParseState)
    (hp : s.is_parsing_chapter = true)
    (ht : s.title = some prev.title)
    (hst : s.start_time = some prev.start_time)
    (het : s.end_time = some prev.end_time)
    (hds : s.description = parsedDesc prev) :
    ∃ sf, runLines i (tailSection rest) s = .ok sf ∧
      sf.tags = s.tags ∧
      finishChapters sf = s.chapters ++ descNorm prev :: rest.map descNorm := by
  induction rest generalizing prev i s with
  | nil =>
    refine ⟨s, rfl, rfl, ?_⟩
    unfold finishChapters
    rw [hp]
    simp only [if_true]
    unfold build_media_chapter
    rw [ht, hst, het, hds]
    simp only [if_neg hprev.1]
    rw [chapter_build_descNorm prev hprev.1]
    simp
  | cons c rs ih =>
    unfold tailSection
    rw [runLines_step _ _ _ _ _ (processLine_empty i s)]
    rw [runLines_step _ _ _ _ _ (processLine_marker_complete (i + 1) s hp prev.title
      prev.start_time prev.end_time ht hprev.1 hst het)]
    rw [runLines_append]
    rw [runLines_body c (hrest c (List.mem_cons_self c rs)) (i + 1 + 1) _ rfl rfl]
    simp only []
    obtain ⟨sf, h1, h2, h3⟩ := ih c (hrest c (List.mem_cons_self c rs))
      (fun x hx => hrest x (List.mem_cons_of_mem c hx))
      (i + 1 + 1 + (bodyLines c).length)
      { tags := s.tags,
        chapters := s.chapters ++ [⟨prev.title, prev.start_time, prev.end_time, s.description⟩],
        is_parsing_chapter := true,
        start_time := some c.start_time, end_time := some c.end_time,
        title := some c.title, description := parsedDesc c }
      rfl rfl rfl rfl rfl
    refine ⟨sf, ?_, ?_, ?_⟩
    · exact h1
    · exact h2
    · rw [h3]
      simp only [List.map_cons]
      rw [hds, chapter_build_descNorm prev hprev.1]
      simp

/-! ### Splitting the dumped string back into its lines -/

theorem tagLine_noLB (kv : Str × Str) (h : WFTag kv) :
    ∀ c ∈ tagLine kv, isLineBreakChar c = false := by
  intro c hc
  unfold tagLine at hc
  rcases List.mem_append.mp hc with h1 | h1
  · exact word_not_lb (h.1.2 c h1)
  · rcases List.mem_cons.mp h1 with h2 | h2
    · subst h2; decide
    · exact h.2 c h2

theorem bodyLines_noLB (c : MediaChapter) (hc : WFChapter c) :
    ∀ l ∈ bodyLines c, (∀ x ∈ l, isLineBreakChar x = false) ∧ l ≠ [] := by
  obtain ⟨htne, htlb, _, _, _, _, hdlb⟩ := hc
  intro l hl
  unfold bodyLines at hl
  rcases List.mem_append.mp hl with h1 | h1
  · simp only [List.mem_cons, List.mem_singleton] at h1
    rcases h1 with h2 | h2 | h2 | h2 | h2
    · subst h2; exact ⟨by decide, by simp⟩
    · subst h2
      refine ⟨?_, by simp⟩
      intro x hx
      rcases List.mem_append.mp hx with h3 | h3
      · fin_cases h3 <;> decide
      · exact digit_not_lb (natDigits_all_digit _ x h3)
    · subst h2
      refine ⟨?_, by simp⟩
      intro x hx
      rcases List.mem_append.mp hx with h3 | h3
      · fin_cases h3 <;> decide
      · exact digit_not_lb (natDigits_all_digit _ x h3)
    · subst h2
      refine ⟨?_, by simp⟩
      intro x hx
      rcases List.mem_append.mp hx with h3 | h3
      · fin_cases h3 <;> decide
      · exact htlb x h3
    · exact absurd h2 (by simp)
  · by_cases hd : truthyDesc c.description
    · rw [if_pos hd] at h1
      simp only [List.mem_singleton] at h1
      subst h1
      refine ⟨?_, by simp⟩
      intro x hx
      rcases List.mem_append.mp hx with h3 | h3
      · fin_cases h3 <;> decide
      · rcases hde : c.description with _ | d
        · rw [hde] at hx hd
          simp [truthyDesc] at hd
        · rw [hde] at h3
          exact hdlb d hde x (by simpa using h3)
    · rw [if_neg hd] at h1
      exact absurd h1 (by simp)

theorem blockLines_noLB (c : MediaChapter) (hc : WFChapter c) :
    ∀ l ∈ blockLines c, (∀ x ∈ l, isLineBreakChar x = false) ∧ l ≠ [] := by
  intro l hl
  unfold blockLines at hl
  rcases List.mem_cons.mp hl with h1 | h1
  · subst h1; exact ⟨by decide, by simp⟩
  · exact bodyLines_noLB c hc l h1

theorem splitlines_joinSep_mid (ls : List Str) (rest : Str) (hne : ls ≠ [])
    (h : ∀ l ∈ ls, ∀ c ∈ l, isLineBreakChar c = false) :
    splitlines (joinSep ['\n'] ls ++ '\n' :: rest) = ls ++ splitlines rest := by
  induction ls with
  | nil => exact absurd rfl hne
  | cons x t ih =>
    rcases t with _ | ⟨y, u⟩
    · rw [show joinSep ['\n'] [x] = x from rfl]
      rw [splitlines_newline x rest (h x (List.mem_cons_self x []))]
      rfl
    · rw [show joinSep ['\n'] (x :: y :: u) = x ++ '\n' :: joinSep ['\n'] (y :: u) from by
        rw [joinSep]; simp]
      rw [List.append_assoc, List.cons_append]
      rw [splitlines_newline x _ (h x (List.mem_cons_self x (y :: u)))]
      rw [ih (by simp) (fun l hl => h l (List.mem_cons_of_mem x hl))]
      rfl

theorem splitlines_joinSep_last (ls : List Str) (hne : ls ≠ [])
    (h : ∀ l ∈ ls, ∀ c ∈ l, isLineBreakChar c = false)
    (hnn : ∀ l ∈ ls, l ≠ []) :
    splitlines (joinSep ['\n'] ls) = ls := by
  induction ls with
  | nil => exact absurd rfl hne
  | cons x t ih =>
    rcases t with _ | ⟨y, u⟩
    · rw [show joinSep ['\n'] [x] = x from rfl]
      rw [splitlines_single x (hnn x (List.mem_cons_self x [])) (h x (List.mem_cons_self x []))]
    · rw [show joinSep ['\n'] (x :: y :: u) = x ++ '\n' :: joinSep ['\n'] (y :: u) from by
        rw [joinSep]; simp]
      rw [splitlines_newline x _ (h x (List.mem_cons_self x (y :: u)))]
      rw [ih (by simp) (fun l hl => h l (List.mem_cons_of_mem x hl))
        (fun l hl => hnn l (List.mem_cons_of_mem x hl))]

theorem splitlines_section (chapters : List MediaChapter) (hne : chapters ≠ [])
    (h : ∀ c ∈ chapters, WFChapter c) :
    splitlines (joinSep ['\n', '\n']
        (chapters.map (fun c => joinSep ['\n'] (blockLines c))))
      = sectionLines chapters := by
  induction chapters with
  | nil => exact absurd rfl hne
  | cons c t ih =>
    rcases t with _ | ⟨c2, u⟩
    · rw [show (List.map (fun c => joinSep ['\n'] (blockLines c)) [c])
        = [joinSep ['\n'] (blockLines c)] from rfl]
      rw [show joinSep ['\n', '\n'] [joinSep ['\n'] (blockLines c)]
        = joinSep ['\n'] (blockLines c) from rfl]
      rw [splitlines_joinSep_last (blockLines c) (by simp [blockLines])
        (fun l hl => (blockLines_noLB c (h c (List.mem_cons_self c [])) l hl).1)
        (fun l hl => (blockLines_noLB c (h c (List.mem_cons_self c [])) l hl).2)]
      unfold sectionLines blockLines tailSection
      simp
    · rw [List.map_cons, List.map_cons]
      rw [show joinSep ['\n', '\n'] (joinSep ['\n'] (blockLines c)
            :: joinSep ['\n'] (blockLines c2)
            :: List.map (fun x => joinSep ['\n'] (blockLines x)) u)
          = joinSep ['\n'] (blockLines c) ++ '\n' :: '\n'
            :: joinSep ['\n', '\n'] (joinSep ['\n'] (blockLines c2)
                :: List.map (fun x => joinSep ['\n'] (blockLines x)) u)
        from by rw [joinSep]; simp]
      rw [splitlines_joinSep_mid (blockLines c) _ (by simp [blockLines])
        (fun l hl => (blockLines_noLB c (h c (List.mem_cons_self c _)) l hl).1)]
      rw [show ('\n' :: joinSep ['\n', '\n']
          (joinSep ['\n'] (blockLines c2)
            :: List.map (fun x => joinSep ['\n'] (blockLines x)) u))
        = [] ++ '\n' :: joinSep ['\n', '\n']
            (joinSep ['\n'] (blockLines c2)
              :: List.map (fun x => joinSep ['\n'] (blockLines x)) u) from rfl]
      rw [splitlines_newline [] _ (by simp)]
      rw [show (joinSep ['\n', '\n'] (joinSep ['\n'] (blockLines c2)
            :: List.map (fun x => joinSep ['\n'] (blockLines x)) u))
          = joinSep ['\n', '\n']
              (List.map (fun x => joinSep ['\n'] (blockLines x)) (c2 :: u)) from by
        rw [List.map_cons]]
      rw [ih (by simp) (fun x hx => h x (List.mem_cons_of_mem c hx))]
      rw [show sectionLines (c :: c2 :: u)
          = "[CHAPTER]".data :: (bodyLines c ++ tailSection (c2 :: u)) from rfl]
      rw [show tailSection (c2 :: u)
          = ([] : Str) :: "[CHAPTER]".data :: (bodyLines c2 ++ tailSection u) from rfl]
      rw [show sectionLines (c2 :: u)
          = "[CHAPTER]".data :: (bodyLines c2 ++ tailSection u) from rfl]
      simp [blockLines]

theorem run_section (chapters : List MediaChapter) (hch : ∀ c ∈ chapters, WFChapter c)
    (i : Nat) (s : ParseState)
    (hp : s.is_parsing_chapter = false) (hst : s.start_time = none)
    (het : s.end_time = none) (htl : s.title = none) (hdd : s.description = none)
    (hchap : s.chapters = []) :
    ∃ sf, runLines i (sectionLines chapters) s = .ok sf ∧ sf.tags = s.tags ∧
      finishChapters sf = chapters.map descNorm := by
  rcases chapters with _ | ⟨c, rest⟩
  · refine ⟨s, runLines_nil i s, rfl, ?_⟩
    unfold finishChapters
    rw [hp]
    simp [hchap]
  · rw [show sectionLines (c :: rest)
      = "[CHAPTER]".data :: (bodyLines c ++ tailSection rest) from rfl]
    rw [runLines_step _ _ _ _ _ (processLine_marker_open i s hp)]
    rw [runLines_append]
    rw [runLines_body c (hch c (List.mem_cons_self c rest)) (i + 1) _ rfl (by exact hdd)]
    simp only []
    obtain ⟨sf, h1, h2, h3⟩ := runLines_tailSection rest c
      (hch c (List.mem_cons_self c rest))
      (fun x hx => hch x (List.mem_cons_of_mem c hx))
      (i + 1 + (bodyLines c).length)
      { s with is_parsing_chapter := true,
               start_time := some c.start_time, end_time := some c.end_time,
               title := some c.title, description := parsedDesc c }
      rfl rfl rfl rfl rfl
    refine ⟨sf, h1, by rw [h2], ?_⟩
    rw [h3]
    simp only []
    rw [hchap]
    simp

/-- Master round trip: on well-formed metadata, `loads ∘ dumps` reproduces
the tags exactly and the chapters up to empty-description normalisation. -/
theorem loads_dumps_roundtrip (m : MediaMetadata)
    (htags : ∀ kv ∈ m.tags, WFTag kv)
    (hch : ∀ c ∈ m.chapters, WFChapter c) :
    ∃ out, dumps_ffmetadata m = some out ∧
      loads_ffmetadata out = .ok ⟨"1".data, m.tags, m.chapters.map descNorm⟩ := by
  refine ⟨_, dumps_eq m hch, ?_⟩
  unfold loads_ffmetadata
  rw [show joinSep ['\n']
      [";FFMETADATA".data,
       joinSep ['\n'] (m.tags.map tagLine),
       [],
       joinSep ['\n', '\n'] (m.chapters.map (fun c => joinSep ['\n'] (blockLines c)))]
    = ";FFMETADATA".data ++ '\n' :: (joinSep ['\n'] (m.tags.map tagLine)
        ++ '\n' :: ('\n' :: joinSep ['\n', '\n']
            (m.chapters.map (fun c => joinSep ['\n'] (blockLines c))))) from by
    rw [joinSep, joinSep, joinSep]
    simp
    rfl]
  rw [splitlines_newline ";FFMETADATA".data _ (by decide)]
  simp only []
  rw [if_neg (by decide)]
  have hsec : splitlines (joinSep ['\n', '\n']
      (m.chapters.map (fun c => joinSep ['\n'] (blockLines c))))
      = sectionLines m.chapters := by
    rcases hcs : m.chapters with _ | ⟨c, rest⟩
    · rfl
    · rw [← hcs]
      exact splitlines_section m.chapters (by rw [hcs]; simp) hch
  by_cases htag0 : m.tags = []
  · rw [htag0]
    rw [show (List.map tagLine [] : List Str) = [] from rfl]
    rw [show (joinSep ['\n'] [] : Str) = [] from rfl]
    rw [List.nil_append]
    rw [show ('\n' :: ('\n' :: joinSep ['\n', '\n']
        (m.chapters.map (fun c => joinSep ['\n'] (blockLines c)))))
      = [] ++ '\n' :: ('\n' :: joinSep ['\n', '\n']
          (m.chapters.map (fun c => joinSep ['\n'] (blockLines c)))) from rfl]
    rw [splitlines_newline [] _ (by simp)]
    rw [show ('\n' :: joinSep ['\n', '\n']
        (m.chapters.map (fun c => joinSep ['\n'] (blockLines c))))
      = [] ++ '\n' :: joinSep ['\n', '\n']
          (m.chapters.map (fun c => joinSep ['\n'] (blockLines c))) from rfl]
    rw [splitlines_newline [] _ (by simp)]
    rw [hsec]
    rw [runLines_step _ _ _ _ _ (processLine_empty 0 initParseState)]
    rw [runLines_step _ _ _ _ _ (processLine_empty 1 initParseState)]
    obtain ⟨sf, h1, h2, h3⟩ := run_section m.chapters hch 2 initParseState
      rfl rfl rfl rfl rfl rfl
    rw [h1]
    simp only []
    rw [h2, h3]
    rfl
  · rw [splitlines_joinSep_mid (m.tags.map tagLine) _ (by simpa using htag0)
      (by
        intro l hl
        obtain ⟨kv, hkv, rfl⟩ := List.mem_map.mp hl
        exact tagLine_noLB kv (htags kv hkv))]
    rw [show ('\n' :: joinSep ['\n', '\n']
        (m.chapters.map (fun c => joinSep ['\n'] (blockLines c))))
      = [] ++ '\n' :: joinSep ['\n', '\n']
          (m.chapters.map (fun c => joinSep ['\n'] (blockLines c))) from rfl]
    rw [splitlines_newline [] _ (by simp)]
    rw [hsec]
    rw [runLines_append]
    rw [runLines_tags m.tags htags 0 initParseState rfl]
    simp only []
    rw [runLines_step _ _ _ _ _ (processLine_empty _ _)]
    obtain ⟨sf, h1, h2, h3⟩ := run_section m.chapters hch
      (0 + (m.tags.map tagLine).length + 1)
      { initParseState with tags := initParseState.tags ++ m.tags }
      rfl rfl rfl rfl rfl rfl
    rw [h1]
    simp only []
    rw [h2, h3]
    rfl

/-! ### Sorting and projection lemmas for `probe_metadata` -/

theorem mem_chapterInsert (x z : RawChapter) (l : List RawChapter) :
    z ∈ chapterInsert x l ↔ z = x ∨ z ∈ l := by
  induction l with
  | nil => simp [chapterInsert]
  | cons y ys ih =>
    unfold chapterInsert
    by_cases h : x.start ≤ y.start
    · rw [if_pos h]
      simp
    · rw [if_neg h]
      simp [ih]
      tauto

theorem pairwise_chapterInsert (x : RawChapter) (l : List RawChapter)
    (h : l.Pairwise (fun a b => a.start ≤ b.start)) :
    (chapterInsert x l).Pairwise (fun a b => a.start ≤ b.start) := by
  induction l with
  | nil => simp [chapterInsert]
  | cons y ys ih =>
    rcases List.pairwise_cons.mp h with ⟨hy, hys⟩
    unfold chapterInsert
    by_cases hle : x.start ≤ y.start
    · rw [if_pos hle]
      refine List.pairwise_cons.mpr ⟨?_, h⟩
      intro z hz
      rcases List.mem_cons.mp hz with h1 | h1
      · subst h1; exact hle
      · exact le_trans hle (hy z h1)
    · rw [if_neg hle]
      refine List.pairwise_cons.mpr ⟨?_, ih hys⟩
      intro z hz
      rcases (mem_chapterInsert x z ys).mp hz with h1 | h1
      · subst h1; omega
      · exact hy z h1

theorem pairwise_sortChapters (l : List RawChapter) :
    (sortChapters l).Pairwise (fun a b => a.start ≤ b.start) := by
  induction l with
  | nil => exact List.Pairwise.nil
  | cons x xs ih => exact pairwise_chapterInsert x (sortChapters xs) ih

theorem filter_chapterInsert_pos (x : RawChapter) (l : List RawChapter) (k : Int)
    (hx : x.start = k) :
    (chapterInsert x l).filter (fun c => c.start == k)
      = x :: l.filter (fun c => c.start == k) := by
  induction l with
  | nil =>
    unfold chapterInsert
    simp [List.filter_cons, hx]
  | cons y ys ih =>
    unfold chapterInsert
    by_cases hle : x.start ≤ y.start
    · rw [if_pos hle]
      simp [List.filter_cons, hx]
    · rw [if_neg hle]
      have hy : (y.start == k) = false := by
        rw [beq_eq_false_iff_ne]
        omega
      rw [List.filter_cons, hy]
      rw [if_neg (by simp)]
      rw [ih, List.filter_cons, hy]
      rw [if_neg (by simp)]
  
theorem filter_chapterInsert_neg (x : RawChapter) (l : List RawChapter) (k : Int)
    (hx : x.start ≠ k) :
    (chapterInsert x l).filter (fun c => c.start == k)
      = l.filter (fun c => c.start == k) := by
  induction l with
  | nil =>
    unfold chapterInsert
    simp [List.filter_cons, beq_eq_false_iff_ne.mpr hx]
  | cons y ys ih =>
    unfold chapterInsert
    by_cases hle : x.start ≤ y.start
    · rw [if_pos hle]
      rw [List.filter_cons, beq_eq_false_iff_ne.mpr hx]
      simp
    · rw [if_neg hle]
      rw [List.filter_cons, List.filter_cons, ih]

theorem sortChapters_stable (l : List RawChapter) (k : Int) :
    (sortChapters l).filter (fun c => c.start == k)
      = l.filter (fun c => c.start == k) := by
  induction l with
  | nil => rfl
  | cons x xs ih =>
    show (chapterInsert x (sortChapters xs)).filter (fun c => c.start == k)
        = (x :: xs).filter (fun c => c.start == k)
    by_cases hx : x.start = k
    · rw [filter_chapterInsert_pos x _ k hx, ih, List.filter_cons]
      simp [hx]
    · rw [filter_chapterInsert_neg x _ k hx, ih, List.filter_cons,
        beq_eq_false_iff_ne.mpr hx]
      simp

/-- Whether the projection loop skips a raw chapter
(`not chapter_start or not chapter_end`). -/
def rawSkip (c : RawChapter) : Bool :=
  falsyOptStr c.start_time || falsyOptStr c.end_time

/-- What the projection loop produces for one retained raw chapter. -/
def projectOne (c : RawChapter) : Option MediaChapter :=
  if rawSkip c then none
  else
    match decimalTimes1000Trunc (c.start_time.getD []),
          decimalTimes1000Trunc (c.end_time.getD []) with
    | some sMs, some eMs =>
      some ⟨c.tag_title.getD [], milliseconds_to_time sMs,
            milliseconds_to_time eMs, c.tag_description⟩
    | _, _ => none

theorem projectChapters_spec (chs : List RawChapter) (i : Nat)
    (res : List MediaChapter × List Nat) (h : projectChapters i chs = some res) :
    res.1 = chs.filterMap projectOne ∧
    res.2 = ((List.enumFrom i chs).filter (fun p => rawSkip p.2)).map Prod.fst := by
  induction chs generalizing i res with
  | nil =>
    unfold projectChapters at h
    injection h with h
    subst h
    simp
  | cons c rest ih =>
    unfold projectChapters at h
    by_cases hskip : rawSkip c
    · rw [show (falsyOptStr c.start_time || falsyOptStr c.end_time) = rawSkip c from rfl,
        hskip] at h
      simp only [if_true] at h
      rcases hrec : projectChapters (i + 1) rest with _ | p
      · rw [hrec] at h; exact absurd h (by simp)
      · rw [hrec] at h
        obtain ⟨ih1, ih2⟩ := ih (i + 1) p hrec
        injection h with h
        subst h
        refine ⟨?_, ?_⟩
        · simp [List.filterMap_cons, projectOne, hskip, ih1]
        · simp [List.enumFrom, List.filter_cons, hskip, ih2]
    · have hskipf : rawSkip c = false := by
        rcases hb : rawSkip c
        · rfl
        · exact absurd hb hskip
      rw [show (falsyOptStr c.start_time || falsyOptStr c.end_time) = rawSkip c from rfl,
        hskipf] at h
      rw [if_neg (by simp)] at h
      rcases hs : decimalTimes1000Trunc (c.start_time.getD []) with _ | sMs
      · rw [hs] at h; exact absurd h (by simp)
      · rcases he : decimalTimes1000Trunc (c.end_time.getD []) with _ | eMs
        · rw [hs, he] at h; exact absurd h (by simp)
        · rw [hs, he] at h
          rcases hrec : projectChapters (i + 1) rest with _ | p
          · rw [hrec] at h; exact absurd h (by simp)
          · rw [hrec] at h
            obtain ⟨ih1, ih2⟩ := ih (i + 1) p hrec
            injection h with h
            subst h
            refine ⟨?_, ?_⟩
            · simp [List.filterMap_cons, projectOne, hskipf, hs, he, ih1]
            · simp [List.enumFrom, List.filter_cons, hskipf, ih2]

/-! ### Acceptance characterisation of `parse_timestamp` -/

theorem digitsVal_one (a : Char) : digitsVal [a] = digitVal a := by
  simp [digitsVal, List.foldl]

theorem digitsVal_pair (a b : Char) : digitsVal [a, b] = 10 * digitVal a + digitVal b := by
  simp [digitsVal, List.foldl]

theorem digitVal_lt (c : Char) (h : c.isDigit = true) : digitVal c < 10 := by
  unfold digitVal
  simp [Char.isDigit] at h
  obtain ⟨h1, h2⟩ := h
  have h3 : c.val.toNat ≤ 57 := h2
  unfold Char.toNat
  omega

theorem spHours_spec (hs rest : Str) (hne : hs ≠ []) (hlen : hs.length ≤ 2)
    (hdig : ∀ c ∈ hs, c.isDigit = true) (hval : digitsVal hs ≤ 23) :
    spHours (hs ++ ':' :: rest) = some (digitsVal hs, rest) := by
  rcases hs with _ | ⟨a, t⟩
  · exact absurd rfl hne
  rcases t with _ | ⟨b, u⟩
  · have ha := hdig a (by simp)
    show spHours (a :: ':' :: rest) = _
    unfold spHours
    simp only []
    rw [if_pos ha, if_neg (by decide)]
    simp [digitsVal_one]
  rcases u with _ | ⟨c, v⟩
  · have ha := hdig a (by simp)
    have hb := hdig b (by simp)
    show spHours (a :: b :: ':' :: rest) = _
    unfold spHours
    simp only []
    rw [digitsVal_pair] at hval
    rw [if_pos ha, if_pos hb, if_pos hval, digitsVal_pair]
  · simp at hlen

theorem spMinutes_spec (ms rest : Str) (hne : ms ≠ []) (hlen : ms.length ≤ 2)
    (hdig : ∀ c ∈ ms, c.isDigit = true) (hval : digitsVal ms ≤ 59) :
    spMinutes (ms ++ ':' :: rest) = some (digitsVal ms, rest) := by
  rcases ms with _ | ⟨a, t⟩
  · exact absurd rfl hne
  rcases t with _ | ⟨b, u⟩
  · have ha := hdig a (by simp)
    show spMinutes (a :: ':' :: rest) = _
    unfold spMinutes
    simp only []
    rw [if_pos ha, if_neg (by decide)]
    simp [digitsVal_one]
  rcases u with _ | ⟨c, v⟩
  · have ha := hdig a (by simp)
    have hb := hdig b (by simp)
    show spMinutes (a :: b :: ':' :: rest) = _
    unfold spMinutes
    simp only []
    rw [digitsVal_pair] at hval
    have hbl := digitVal_lt b hb
    rw [if_pos ha, if_pos hb, if_pos (by omega), digitsVal_pair]
  · simp at hlen

theorem spSeconds_spec (ss rest : Str) (hne : ss ≠ []) (hlen : ss.length ≤ 2)
    (hdig : ∀ c ∈ ss, c.isDigit = true) (hval : digitsVal ss ≤ 61) :
    spSeconds (ss ++ '.' :: rest) = some (digitsVal ss, rest) := by
  rcases ss with _ | ⟨a, t⟩
  · exact absurd rfl hne
  rcases t with _ | ⟨b, u⟩
  · have ha := hdig a (by simp)
    show spSeconds (a :: '.' :: rest) = _
    unfold spSeconds
    simp only []
    rw [if_pos ha, if_neg (by decide)]
    simp [digitsVal_one]
  rcases u with _ | ⟨c, v⟩
  · have ha := hdig a (by simp)
    have hb := hdig b (by simp)
    show spSeconds (a :: b :: '.' :: rest) = _
    unfold spSeconds
    simp only []
    rw [digitsVal_pair] at hval
    have hbl := digitVal_lt b hb
    rw [if_pos ha, if_pos hb, if_pos (by omega), digitsVal_pair]
  · simp at hlen

theorem digitsVal_append_zeros (fs : Str) :
    digitsVal (fs ++ ['0', '0', '0']) = digitsVal fs * 1000 := by
  rw [show (fs ++ ['0', '0', '0']) = ((fs ++ ['0']) ++ ['0']) ++ ['0'] from by simp]
  rw [digitsVal_append, digitsVal_append, digitsVal_append]
  have : digitVal '0' = 0 := by decide
  rw [this]
  ring

theorem spFraction_spec (fs : Str) (hdig : ∀ c ∈ fs, c.isDigit = true)
    (hlen : fs.length ≤ 3) :
    spFraction (fs ++ ['0', '0', '0'])
      = some (digitsVal fs * 1000 * 10 ^ (3 - fs.length)) := by
  unfold spFraction
  have hall : ∀ c ∈ fs ++ ['0', '0', '0'], Char.isDigit c = true := by
    intro c hc
    rcases List.mem_append.mp hc with h1 | h1
    · exact hdig c h1
    · fin_cases h1 <;> decide
  rw [takeWhile_all hall, dropWhile_all hall]
  rw [if_pos (by
    refine ⟨by simp, ?_, rfl⟩
    simp only [List.length_append, List.length_cons, List.length_nil]
    omega)]
  rw [digitsVal_append_zeros]
  have he : (6 : Nat) - (fs ++ ['0', '0', '0']).length = 3 - fs.length := by
    simp only [List.length_append, List.length_cons, List.length_nil]
    omega
  rw [he]

/-- Completeness half of the acceptance characterisation: every string of
the shape `H:M:S.F` with 1–2 digit fields (`H ≤ 23`, `M, S ≤ 59`) and a
0–3 digit fraction is accepted, producing the fraction right-padded with
zeros to milliseconds. -/
theorem parse_timestamp_accepts (hs ms ss fs : Str)
    (hh : hs ≠ [] ∧ hs.length ≤ 2 ∧ (∀ c ∈ hs, c.isDigit = true) ∧ digitsVal hs ≤ 23)
    (hm : ms ≠ [] ∧ ms.length ≤ 2 ∧ (∀ c ∈ ms, c.isDigit = true) ∧ digitsVal ms ≤ 59)
    (hsx : ss ≠ [] ∧ ss.length ≤ 2 ∧ (∀ c ∈ ss, c.isDigit = true) ∧ digitsVal ss ≤ 59)
    (hf : (∀ c ∈ fs, c.isDigit = true) ∧ fs.length ≤ 3) :
    parse_timestamp (hs ++ ':' :: ms ++ ':' :: ss ++ '.' :: fs)
      = some ⟨digitsVal hs, digitsVal ms, digitsVal ss,
              digitsVal fs * 1000 * 10 ^ (3 - fs.length)⟩ := by
  unfold parse_timestamp strptimeHMSf
  rw [show ((hs ++ ':' :: ms ++ ':' :: ss ++ '.' :: fs) ++ ['0', '0', '0'])
    = hs ++ ':' :: (ms ++ ':' :: (ss ++ '.' :: (fs ++ ['0', '0', '0']))) from by simp]
  rw [spHours_spec hs _ hh.1 hh.2.1 hh.2.2.1 hh.2.2.2]
  simp only []
  rw [spMinutes_spec ms _ hm.1 hm.2.1 hm.2.2.1 hm.2.2.2]
  simp only []
  rw [spSeconds_spec ss _ hsx.1 hsx.2.1 hsx.2.2.1 (by omega)]
  simp only []
  rw [spFraction_spec fs hf.1 hf.2]
  simp only []
  rw [if_neg (by
    obtain ⟨h1, h2, h3, h4⟩ := hsx
    omega)]

theorem spHours_inv (s : Str) (v : Nat) (r : Str) (h : spHours s = some (v, r)) :
    ∃ pre, s = pre ++ ':' :: r ∧ pre ≠ [] ∧ pre.length ≤ 2 ∧
      (∀ c ∈ pre, c.isDigit = true) ∧ digitsVal pre = v ∧ v ≤ 23 := by
  rcases s with _ | ⟨a, t⟩
  · exact absurd h (by simp [spHours])
  rcases t with _ | ⟨b, u⟩
  · exact absurd h (by simp [spHours])
  unfold spHours at h
  simp only [] at h
  by_cases ha : a.isDigit
  · rw [if_pos ha] at h
    by_cases hb : b.isDigit
    · rw [if_pos hb] at h
      rcases u with _ | ⟨u0, u1⟩
      · simp at h
      · by_cases hu : u0 = ':'
        · subst hu
          simp only [] at h
          by_cases hval : 10 * digitVal a + digitVal b ≤ 23
          · rw [if_pos hval] at h
            injection h with h'
            rw [Prod.mk.injEq] at h'
            obtain ⟨h1, h2⟩ := h'
            subst h2
            refine ⟨[a, b], by simp, by simp, by simp, ?_, ?_, by omega⟩
            · intro c hc
              rcases List.mem_cons.mp hc with h3 | h3
              · subst h3; exact ha
              · simp at h3; subst h3; exact hb
            · rw [digitsVal_pair, h1]
          · rw [if_neg hval] at h
            simp at h
        · rcases hsp : (match u0 :: u1 with
            | ':' :: rest2 =>
              if 10 * digitVal a + digitVal b ≤ 23
              then some (10 * digitVal a + digitVal b, rest2) else none
            | _ => none) with _ | p
          · rw [hsp] at h; simp at h
          · exfalso
            revert hsp
            split
            · rename_i heq
              injection heq with hx1 hx2
              exact fun _ => hu hx1
            · intro hsp; simp at hsp
    · rw [if_neg hb] at h
      by_cases hbc : b = ':'
      · rw [if_pos hbc] at h
        injection h with h'
        rw [Prod.mk.injEq] at h'
        obtain ⟨h1, h2⟩ := h'
        subst hbc
        subst h2
        have hva := digitVal_lt a ha
        refine ⟨[a], by simp, by simp, by simp, ?_, ?_, by omega⟩
        · intro c hc
          simp at hc; subst hc; exact ha
        · rw [digitsVal_one, h1]
      · rw [if_neg hbc] at h
        simp at h
  · rw [if_neg ha] at h
    simp at h

theorem spMinutes_inv (s : Str) (v : Nat) (r : Str) (h : spMinutes s = some (v, r)) :
    ∃ pre, s = pre ++ ':' :: r ∧ pre ≠ [] ∧ pre.length ≤ 2 ∧
      (∀ c ∈ pre, c.isDigit = true) ∧ digitsVal pre = v ∧ v ≤ 59 := by
  rcases s with _ | ⟨a, t⟩
  · exact absurd h (by simp [spMinutes])
  rcases t with _ | ⟨b, u⟩
  · exact absurd h (by simp [spMinutes])
  unfold spMinutes at h
  simp only [] at h
  by_cases ha : a.isDigit
  · rw [if_pos ha] at h
    by_cases hb : b.isDigit
    · rw [if_pos hb] at h
      rcases u with _ | ⟨u0, u1⟩
      · simp at h
      · by_cases hu : u0 = ':'
        · subst hu
          simp only [] at h
          by_cases hval : digitVal a ≤ 5
          · rw [if_pos hval] at h
            injection h with h'
            rw [Prod.mk.injEq] at h'
            obtain ⟨h1, h2⟩ := h'
            subst h2
            have hvb := digitVal_lt b hb
            refine ⟨[a, b], by simp, by simp, by simp, ?_, ?_, by omega⟩
            · intro c hc
              rcases List.mem_cons.mp hc with h3 | h3
              · subst h3; exact ha
              · simp at h3; subst h3; exact hb
            · rw [digitsVal_pair, h1]
          · rw [if_neg hval] at h
            simp at h
        · rcases hsp : (match u0 :: u1 with
            | ':' :: rest2 =>
              if digitVal a ≤ 5
              then some (10 * digitVal a + digitVal b, rest2) else none
            | _ => none) with _ | p
          · rw [hsp] at h; simp at h
          · exfalso
            revert hsp
            split
            · rename_i heq
              injection heq with hx1 hx2
              exact fun _ => hu hx1
            · intro hsp; simp at hsp
    · rw [if_neg hb] at h
      by_cases hbc : b = ':'
      · rw [if_pos hbc] at h
        injection h with h'
        rw [Prod.mk.injEq] at h'
        obtain ⟨h1, h2⟩ := h'
        subst hbc
        subst h2
        have hva := digitVal_lt a ha
        refine ⟨[a], by simp, by simp, by simp, ?_, ?_, by omega⟩
        · intro c hc
          simp at hc; subst hc; exact ha
        · rw [digitsVal_one, h1]
      · rw [if_neg hbc] at h
        simp at h
  · rw [if_neg ha] at h
    simp at h

theorem spSeconds_inv (s : Str) (v : Nat) (r : Str) (h : spSeconds s = some (v, r)) :
    ∃ pre, s = pre ++ '.' :: r ∧ pre ≠ [] ∧ pre.length ≤ 2 ∧
      (∀ c ∈ pre, c.isDigit = true) ∧ digitsVal pre = v ∧ v ≤ 61 := by
  rcases s with _ | ⟨a, t⟩
  · exact absurd h (by simp [spSeconds])
  rcases t with _ | ⟨b, u⟩
  · exact absurd h (by simp [spSeconds])
  unfold spSeconds at h
  simp only [] at h
  by_cases ha : a.isDigit
  · rw [if_pos ha] at h
    by_cases hb : b.isDigit
    · rw [if_pos hb] at h
      rcases u with _ | ⟨u0, u1⟩
      · simp at h
      · by_cases hu : u0 = '.'
        · subst hu
          simp only [] at h
          by_cases hval : digitVal a ≤ 5 ∨ (digitVal a = 6 ∧ digitVal b ≤ 1)
          · rw [if_pos hval] at h
            injection h with h'
            rw [Prod.mk.injEq] at h'
            obtain ⟨h1, h2⟩ := h'
            subst h2
            have hvb := digitVal_lt b hb
            refine ⟨[a, b], by simp, by simp, by simp, ?_, ?_, by omega⟩
            · intro c hc
              rcases List.mem_cons.mp hc with h3 | h3
              · subst h3; exact ha
              · simp at h3; subst h3; exact hb
            · rw [digitsVal_pair, h1]
          · rw [if_neg hval] at h
            simp at h
        · rcases hsp : (match u0 :: u1 with
            | '.' :: rest2 =>
              if digitVal a ≤ 5 ∨ (digitVal a = 6 ∧ digitVal b ≤ 1)
              then some (10 * digitVal a + digitVal b, rest2) else none
            | _ => none) with _ | p
          · rw [hsp] at h; simp at h
          · exfalso
            revert hsp
            split
            · rename_i heq
              injection heq with hx1 hx2
              exact fun _ => hu hx1
            · intro hsp; simp at hsp
    · rw [if_neg hb] at h
      by_cases hbc : b = '.'
      · rw [if_pos hbc] at h
        injection h with h'
        rw [Prod.mk.injEq] at h'
        obtain ⟨h1, h2⟩ := h'
        subst hbc
        subst h2
        have hva := digitVal_lt a ha
        refine ⟨[a], by simp, by simp, by simp, ?_, ?_, by omega⟩
        · intro c hc
          simp at hc; subst hc; exact ha
        · rw [digitsVal_one, h1]
      · rw [if_neg hbc] at h
        simp at h
  · rw [if_neg ha] at h
    simp at h

theorem spFraction_inv (s : Str) (micro : Nat) (h : spFraction s = some micro) :
    (∀ c ∈ s, c.isDigit = true) ∧ 1 ≤ s.length ∧ s.length ≤ 6 ∧
      micro = digitsVal s * 10 ^ (6 - s.length) := by
  unfold spFraction at h
  simp only [] at h
  split_ifs at h with hc
  obtain ⟨h1, h2, h3⟩ := hc
  have hall : ∀ c ∈ s, c.isDigit = true := List.dropWhile_eq_nil_iff.mp h3
  have htw : s.takeWhile Char.isDigit = s := takeWhile_all hall
  rw [htw] at h1 h2
  injection h with h'
  rw [htw] at h'
  exact ⟨hall, h1, h2, h'.symm⟩

theorem strptimeHMSf_inv (cs : Str) (t : PyTime) (h : strptimeHMSf cs = some t) :
    ∃ hs ms ss F, cs = hs ++ ':' :: ms ++ ':' :: ss ++ '.' :: F ∧
      (hs ≠ [] ∧ hs.length ≤ 2 ∧ (∀ c ∈ hs, c.isDigit = true) ∧ digitsVal hs ≤ 23) ∧
      (ms ≠ [] ∧ ms.length ≤ 2 ∧ (∀ c ∈ ms, c.isDigit = true) ∧ digitsVal ms ≤ 59) ∧
      (ss ≠ [] ∧ ss.length ≤ 2 ∧ (∀ c ∈ ss, c.isDigit = true) ∧ digitsVal ss ≤ 59) ∧
      ((∀ c ∈ F, c.isDigit = true) ∧ 1 ≤ F.length ∧ F.length ≤ 6) ∧
      t = ⟨digitsVal hs, digitsVal ms, digitsVal ss,
           digitsVal F * 10 ^ (6 - F.length)⟩ := by
  unfold strptimeHMSf at h
  rcases hH : spHours cs with _ | ⟨v1, r1⟩
  · rw [hH] at h; simp at h
  rw [hH] at h
  simp only [] at h
  rcases hM : spMinutes r1 with _ | ⟨v2, r2⟩
  · rw [hM] at h; simp at h
  rw [hM] at h
  simp only [] at h
  rcases hS : spSeconds r2 with _ | ⟨v3, r3⟩
  · rw [hS] at h; simp at h
  rw [hS] at h
  simp only [] at h
  rcases hF : spFraction r3 with _ | micro
  · rw [hF] at h; simp at h
  rw [hF] at h
  simp only [] at h
  split_ifs at h with hsec
  injection h with h
  obtain ⟨hs, hcs, hs1, hs2, hs3, hs4, hs5⟩ := spHours_inv cs v1 r1 hH
  obtain ⟨ms, hr1, hm1, hm2, hm3, hm4, hm5⟩ := spMinutes_inv r1 v2 r2 hM
  obtain ⟨ss, hr2, hx1, hx2, hx3, hx4, hx5⟩ := spSeconds_inv r2 v3 r3 hS
  obtain ⟨hf1, hf2, hf3, hf4⟩ := spFraction_inv r3 micro hF
  refine ⟨hs, ms, ss, r3, ?_, ⟨hs1, hs2, hs3, by rw [hs4]; exact hs5⟩,
    ⟨hm1, hm2, hm3, by rw [hm4]; exact hm5⟩,
    ⟨hx1, hx2, hx3, by rw [hx4]; omega⟩,
    ⟨hf1, hf2, hf3⟩, ?_⟩
  · simp [hcs, hr1, hr2]
  · rw [← h, hs4, hm4, hx4, hf4]

theorem parse_timestamp_sound (ts : Str) (t : PyTime)
    (h : parse_timestamp ts = some t) :
    ∃ hs ms ss fs, ts = hs ++ ':' :: ms ++ ':' :: ss ++ '.' :: fs ∧
      (hs ≠ [] ∧ hs.length ≤ 2 ∧ (∀ c ∈ hs, c.isDigit = true) ∧ digitsVal hs ≤ 23) ∧
      (ms ≠ [] ∧ ms.length ≤ 2 ∧ (∀ c ∈ ms, c.isDigit = true) ∧ digitsVal ms ≤ 59) ∧
      (ss ≠ [] ∧ ss.length ≤ 2 ∧ (∀ c ∈ ss, c.isDigit = true) ∧ digitsVal ss ≤ 59) ∧
      ((∀ c ∈ fs, c.isDigit = true) ∧ fs.length ≤ 3) ∧
      t = ⟨digitsVal hs, digitsVal ms, digitsVal ss,
           digitsVal fs * 1000 * 10 ^ (3 - fs.length)⟩ := by
  unfold parse_timestamp at h
  obtain ⟨hs, ms, ss, F, hcs, hhs, hms, hss, ⟨hfd, hf1, hf6⟩, ht⟩ :=
    strptimeHMSf_inv _ t h
  -- Recover the fraction digits of `ts` from those of `ts ++ "000"`.
  have hrev : List.reverse (ts ++ ['0', '0', '0'])
      = '0' :: '0' :: '0' :: ts.reverse := by simp
  rcases hG : F.reverse with _ | ⟨g1, G1⟩
  · have : F = [] := by
      have := congrArg List.reverse hG
      simpa using this
    subst this
    simp at hf1
  rcases G1 with _ | ⟨g2, G2⟩
  · -- |F| = 1: the dot would land inside the appended zeros
    exfalso
    have hF1 : F = [g1] := by
      have := congrArg List.reverse hG
      simpa using this
    subst hF1
    have := congrArg List.reverse hcs
    rw [hrev] at this
    simp at this
  rcases G2 with _ | ⟨g3, G3⟩
  · -- |F| = 2: same contradiction one position later
    exfalso
    have hF2 : F = [g2, g1] := by
      have := congrArg List.reverse hG
      simpa using this
    subst hF2
    have := congrArg List.reverse hcs
    rw [hrev] at this
    simp at this
  · -- |F| ≥ 3: the last three characters of F are the appended zeros
    have hF3 : F = G3.reverse ++ [g3, g2, g1] := by
      have := congrArg List.reverse hG
      simpa using this
    subst hF3
    have hts := congrArg List.reverse hcs
    rw [hrev] at hts
    simp only [List.reverse_append, List.reverse_cons, List.reverse_reverse,
      List.append_assoc, List.cons_append, List.nil_append] at hts
    injection hts with e1 hts
    injection hts with e2 hts
    injection hts with e3 hts
    subst e1; subst e2; subst e3
    have hts2 : ts = hs ++ ':' :: ms ++ ':' :: ss ++ '.' :: G3.reverse := by
      have := congrArg List.reverse hts
      simpa using this
    refine ⟨hs, ms, ss, G3.reverse, hts2, hhs, hms, hss, ?_, ?_⟩
    · refine ⟨?_, ?_⟩
      · intro c hc
        exact hfd c (by simp [hc])
      · have := hf6
        simp at this ⊢
        omega
    · rw [ht]
      have hdv : digitsVal (G3.reverse ++ ['0', '0', '0'])
          = digitsVal G3.reverse * 1000 := digitsVal_append_zeros _
      rw [hdv]
      have hlen : (G3.reverse ++ ['0', '0', '0']).length = G3.reverse.length + 3 := by
        simp
      rw [hlen]
      have : (6 : Nat) - (G3.reverse.length + 3) = 3 - G3.reverse.length := by omega
      rw [this]

/-! ### Decidability of the well-formedness predicates -/

instance (s : Str) : Decidable (NoLB s) :=
  decidable_of_iff (∀ c ∈ s, isLineBreakChar c = false) Iff.rfl

instance (s : Str) : Decidable (WordStr s) :=
  decidable_of_iff (s ≠ [] ∧ ∀ c ∈ s, isWordChar c = true) Iff.rfl

instance (t : PyTime) : Decidable (MsAligned t) :=
  decidable_of_iff (t.microsecond % 1000 = 0) Iff.rfl

instance (kv : Str × Str) : Decidable (WFTag kv) :=
  decidable_of_iff (WordStr kv.1 ∧ NoLB kv.2) Iff.rfl

instance (o : Option Str) : Decidable (∀ d, o = some d → NoLB d) :=
  match o with
  | none => isTrue (fun _ hd => nomatch hd)
  | some x =>
    decidable_of_iff (NoLB x)
      ⟨fun h d hd => by injection hd with hd; rwa [← hd], fun h => h x rfl⟩

instance (c : MediaChapter) : Decidable (WFChapter c) :=
  decidable_of_iff
    (c.title ≠ [] ∧ NoLB c.title ∧
     PyTimeValid c.start_time ∧ MsAligned c.start_time ∧
     PyTimeValid c.end_time ∧ MsAligned c.end_time ∧
     (∀ d, c.description = some d → NoLB d)) Iff.rfl

/-! ### Error-shape lemmas for the parser loop -/

theorem processLine_no_phantom (i : Nat) (l : Str) (s : ParseState) :
    processLine i l s ≠ .error .indexError ∧
    processLine i l s ≠ .error .missingHeader := by
  constructor <;>
  · unfold processLine
    repeat' split
    all_goals try simp only []
    all_goals try split_ifs
    all_goals simp

theorem runLines_no_phantom (i : Nat) (ls : List Str) (s : ParseState) :
    runLines i ls s ≠ .error .indexError ∧
    runLines i ls s ≠ .error .missingHeader := by
  induction ls generalizing i s with
  | nil => exact ⟨by simp [runLines_nil], by simp [runLines_nil]⟩
  | cons l rest ih =>
    rw [runLines_cons]
    rcases hp : processLine i l s with e | s'
    · simp only []
      constructor
      · intro hc
        injection hc with hc
        exact (processLine_no_phantom i l s).1 (by rw [hp, hc])
      · intro hc
        injection hc with hc
        exact (processLine_no_phantom i l s).2 (by rw [hp, hc])
    · simp only []
      exact ih (i + 1) s'

/-- A chapter whose description is neither absent nor empty is untouched by
the round-trip description normalisation. -/
theorem descNorm_eq_self (c : MediaChapter) (h : c.description ≠ some []) :
    descNorm c = c := by
  obtain ⟨t, st, et, d⟩ := c
  unfold descNorm
  simp only []
  rcases d with _ | d
  · rfl
  · simp only []
    rw [if_neg (fun he => h (by simp only [he]))]

/-! ### The claims -/

/-- C1 (amended): the round trip `loads_ffmetadata (dumps_ffmetadata m)`
reproduces `m.tags` and `m.chapters` exactly, provided additionally that
every tag has a `\w+` key and a line-break-free value, every chapter title
and description is line-break-free, times are valid with whole-millisecond
precision, and no chapter carries an empty-string description (the original
claim, quantified over arbitrary tags and descriptions, is refuted by
`C1_counterexample`). -/
theorem C1_roundtrip (m : MediaMetadata)
    (htags : ∀ kv ∈ m.tags, WFTag kv)
    (hch : ∀ c ∈ m.chapters, WFChapter c)
    (hdesc : ∀ c ∈ m.chapters, c.description ≠ some []) :
    ∃ out, dumps_ffmetadata m = some out ∧
      loads_ffmetadata out = .ok ⟨"1".data, m.tags, m.chapters⟩ := by
  obtain ⟨out, h1, h2⟩ := loads_dumps_roundtrip m htags hch
  refine ⟨out, h1, ?_⟩
  rw [h2]
  have hmap : m.chapters.map descNorm = m.chapters := by
    have h := List.map_congr_left (fun c hc => descNorm_eq_self c (hdesc c hc))
    rw [h, List.map_id']
  rw [hmap]

theorem C1_roundtrip_witness :
    ∃ out, dumps_ffmetadata ⟨"1".data, [("title".data, "X".data)], []⟩ = some out ∧
      loads_ffmetadata out = .ok ⟨"1".data, [("title".data, "X".data)], []⟩ :=
  C1_roundtrip ⟨"1".data, [("title".data, "X".data)], []⟩
    (by decide) (by decide) (by decide)

/-- Refutation of C1 as stated: the metadata with the single tag
`("my-key", "v")` (and no chapters, so every chapter hypothesis of the
claim holds vacuously) serialises to `";FFMETADATA\nmy-key=v\n\n"`, but
reparsing that string yields an empty tag list — the dumper writes any key
verbatim while the parser only matches `\w+` keys, so `my-key` is silently
dropped and `loads(dumps(m)).tags ≠ m.tags`. -/
theorem C1_counterexample :
    dumps_ffmetadata ⟨"1".data, [("my-key".data, "v".data)], []⟩
      = some ";FFMETADATA\nmy-key=v\n\n".data ∧
    loads_ffmetadata ";FFMETADATA\nmy-key=v\n\n".data = .ok ⟨"1".data, [], []⟩ ∧
    ([] : List (Str × Str)) ≠ [("my-key".data, "v".data)] := by
  refine ⟨by decide, by decide, by decide⟩

/-- C2: the 48-hour timestamp round trip fails in the code.
`milliseconds_to_time` goes through `datetime.utcfromtimestamp`, which
wraps the seconds value modulo one day, so at `n = 86400000` (exactly 24
hours, inside the claimed range `[0, 1000 * 60 * 60 * 48]`) the round trip
returns `0`, not `n`. -/
theorem C2_wrap_bug :
    time_to_milliseconds (milliseconds_to_time 86400000) = some 0 ∧
    (86400000 : Int) ≠ 0 ∧
    86400000 ≤ 1000 * 60 * 60 * 48 := by
  refine ⟨by decide, by decide, by decide⟩

/-- C3: a chapter block that is still incomplete when a second `[CHAPTER]`
marker arrives makes the parse fail with the incomplete-chapter error
carrying the marker's line index, while a chapter block still incomplete
at end of input is silently dropped; in particular the two inputs of the
claim respectively fail with the error at line index 2 and succeed with
zero chapters. -/
theorem C3_boundary_vs_trailing :
    (∀ (i : Nat) (line : Str) (s : ParseState),
      (pyStrip line).length ≠ 0 → isChapterLine line = true →
      s.is_parsing_chapter = true →
      (truthyOptStr s.title && s.start_time.isSome && s.end_time.isSome) = false →
      processLine i line s = .error (.incompleteChapter i)) ∧
    (∀ s : ParseState, s.is_parsing_chapter = true →
      build_media_chapter s.title s.description s.start_time s.end_time = none →
      finishChapters s = s.chapters) ∧
    loads_ffmetadata
        ";FFMETADATA\n[CHAPTER]\ntitle=A\n[CHAPTER]\ntitle=B\nstart=0\nend=100\n".data
      = .error (.incompleteChapter 2) ∧
    loads_ffmetadata ";FFMETADATA\n[CHAPTER]\ntitle=A\n".data
      = .ok ⟨"1".data, [], []⟩ := by
  refine ⟨?_, ?_, by decide, by decide⟩
  · intro i line s h1 h2 h3 h4
    unfold processLine
    rw [if_neg h1, if_pos h2, if_pos h3, if_pos (by rw [h4]; rfl)]
  · intro s h1 h2
    unfold finishChapters
    rw [if_pos h1, h2]

theorem C3_witness :
    processLine 2 "[CHAPTER]".data ⟨[], [], true, none, none, some "A".data, none⟩
      = .error (.incompleteChapter 2) :=
  C3_boundary_vs_trailing.1 2 "[CHAPTER]".data
    ⟨[], [], true, none, none, some "A".data, none⟩
    (by decide) (by decide) rfl (by decide)

/-- C4: when the input splits into at least one line, the parse fails with
the missing-header error exactly when the first line, lowercased and
stripped, differs from `;ffmetadata`; and with at least one line present
the out-of-bounds first-line access never occurs. -/
theorem C4_header (content first : Str) (rest : List Str)
    (h : splitlines content = first :: rest) :
    (loads_ffmetadata content = .error .missingHeader ↔
      pyStrip (pyLower first) ≠ ";ffmetadata".data) ∧
    loads_ffmetadata content ≠ .error .indexError := by
  unfold loads_ffmetadata
  rw [h]
  simp only []
  by_cases hh : pyStrip (pyLower first) ≠ ";ffmetadata".data
  · rw [if_pos hh]
    exact ⟨⟨fun _ => hh, fun _ => rfl⟩, by decide⟩
  · rw [if_neg hh]
    constructor
    · constructor
      · intro hcontra
        rcases hr : runLines 0 rest initParseState with e | s'
        · rw [hr] at hcontra
          simp only [] at hcontra
          injection hcontra with he
          exact absurd (hr.trans (by rw [he]))
            (runLines_no_phantom 0 rest initParseState).2
        · rw [hr] at hcontra
          simp only [] at hcontra
          exact Except.noConfusion hcontra
      · intro hne
        exact absurd hne hh
    · intro hcontra
      rcases hr : runLines 0 rest initParseState with e | s'
      · rw [hr] at hcontra
        simp only [] at hcontra
        injection hcontra with he
        exact absurd (hr.trans (by rw [he]))
          (runLines_no_phantom 0 rest initParseState).1
      · rw [hr] at hcontra
        simp only [] at hcontra
        exact Except.noConfusion hcontra

theorem C4_witness :
    ((loads_ffmetadata ";FFMETADATA".data = .error .missingHeader ↔
      pyStrip (pyLower ";FFMETADATA".data) ≠ ";ffmetadata".data) ∧
     loads_ffmetadata ";FFMETADATA".data ≠ .error .indexError) :=
  C4_header ";FFMETADATA".data ";FFMETADATA".data [] (by decide)

/-- C5 (amended): `dumps_ffmetadata` emits the header line, the tags as
`key=value` lines in document order, one blank line, and the chapter
blocks `[CHAPTER]`, `TIMEBASE=1/1000`, `START=<ms>`, `END=<ms>`,
`title=<title>` in list order separated by a blank line — but the
`description=` line is emitted only when the description is present AND
non-empty, not merely present as the claim states (refuted by
`C5_counterexample`). -/
theorem C5_dumps_format (m : MediaMetadata) (h : ∀ c ∈ m.chapters, WFChapter c) :
    dumps_ffmetadata m = some (joinSep ['\n']
      [";FFMETADATA".data,
       joinSep ['\n'] (m.tags.map (fun kv => kv.1 ++ '=' :: kv.2)),
       [],
       joinSep ['\n', '\n'] (m.chapters.map (fun c => joinSep ['\n']
         ("[CHAPTER]".data ::
          "TIMEBASE=1/1000".data ::
          ("START=".data ++ natDigits (timeMs c.start_time)) ::
          ("END=".data ++ natDigits (timeMs c.end_time)) ::
          ("title=".data ++ c.title) ::
          (match c.description with
           | some d => if d = [] then [] else ["description=".data ++ d]
           | none => []))))]) := by
  rw [dumps_eq m h]
  have hmap : m.chapters.map (fun c => joinSep ['\n'] (blockLines c))
      = m.chapters.map (fun c => joinSep ['\n']
         ("[CHAPTER]".data ::
          "TIMEBASE=1/1000".data ::
          ("START=".data ++ natDigits (timeMs c.start_time)) ::
          ("END=".data ++ natDigits (timeMs c.end_time)) ::
          ("title=".data ++ c.title) ::
          (match c.description with
           | some d => if d = [] then [] else ["description=".data ++ d]
           | none => []))) := by
    apply List.map_congr_left
    intro c _
    unfold blockLines bodyLines
    rcases hd : c.description with _ | d
    · simp [truthyDesc, hd]
    · by_cases hde : d = []
      · subst hde
        simp [truthyDesc, hd]
      · simp [truthyDesc, hd, hde, List.isEmpty_iff]
  rw [hmap]
  rfl

theorem C5_witness :
    dumps_ffmetadata ⟨"1".data, [("artist".data, "Me".data)],
        [⟨"A".data, ⟨0, 0, 0, 0⟩, ⟨0, 0, 1, 500000⟩, some "hi".data⟩]⟩
      = some (joinSep ['\n']
          [";FFMETADATA".data,
           joinSep ['\n'] ([("artist".data, "Me".data)].map
             (fun kv => kv.1 ++ '=' :: kv.2)),
           [],
           joinSep ['\n', '\n']
             ([(⟨"A".data, ⟨0, 0, 0, 0⟩, ⟨0, 0, 1, 500000⟩, some "hi".data⟩ :
                 MediaChapter)].map (fun c => joinSep ['\n']
               ("[CHAPTER]".data ::
                "TIMEBASE=1/1000".data ::
                ("START=".data ++ natDigits (timeMs c.start_time)) ::
                ("END=".data ++ natDigits (timeMs c.end_time)) ::
                ("title=".data ++ c.title) ::
                (match c.description with
                 | some d => if d = [] then [] else ["description=".data ++ d]
                 | none => []))))]) :=
  C5_dumps_format ⟨"1".data, [("artist".data, "Me".data)],
    [⟨"A".data, ⟨0, 0, 0, 0⟩, ⟨0, 0, 1, 500000⟩, some "hi".data⟩]⟩ (by decide)

/-- Refutation of C5 as stated: a chapter whose description is present but
empty (`Some ""`) is serialised WITHOUT a `description=` line — the block
ends at the `title=` line even though a description is present. -/
theorem C5_counterexample :
    dumps_ffmetadata_chapter ⟨"A".data, ⟨0, 0, 0, 0⟩, ⟨0, 0, 1, 0⟩, some []⟩
      = some "[CHAPTER]\nTIMEBASE=1/1000\nSTART=0\nEND=1000\ntitle=A".data ∧
    (MediaChapter.mk "A".data ⟨0, 0, 0, 0⟩ ⟨0, 0, 1, 0⟩
      (some [])).description.isSome = true := by
  refine ⟨by decide, by decide⟩

/-- C6: the probe projection sorts the raw chapter records by their numeric
`start` field ascending with a stable sort (elements with equal keys keep
their original relative order, stated via filters), projects the sorted
records in order, and skips any record with a missing or empty
`start_time`/`end_time` with a warning carrying its index; on raw starts
`[500, 0, 250]` the projected start times come out ascending as
`[0, 250, 500]` milliseconds. -/
theorem C6_probe_sort_skip :
    (∀ l : List RawChapter,
      (sortChapters l).Pairwise (fun a b => a.start ≤ b.start)) ∧
    (∀ (l : List RawChapter) (k : Int),
      (sortChapters l).filter (fun c => c.start == k)
        = l.filter (fun c => c.start == k)) ∧
    (∀ (chs : List RawChapter) (res : List MediaChapter × List Nat),
      probe_metadata_chapters chs = some res →
      res.1 = (sortChapters chs).filterMap projectOne ∧
      res.2 = ((List.enumFrom 0 (sortChapters chs)).filter
                (fun p => rawSkip p.2)).map Prod.fst) ∧
    ((probe_metadata_chapters
        [⟨500, some "0.5".data, some "0.6".data, some "x".data, none⟩,
         ⟨0, some "0.0".data, some "0.1".data, some "y".data, none⟩,
         ⟨250, some "0.25".data, some "0.3".data, some "z".data, none⟩]).map
        (fun r => r.1.map (fun c => timeMs c.start_time)))
      = some [0, 250, 500] ∧
    probe_metadata_chapters [⟨0, some "0.0".data, none, none, none⟩]
      = some ([], [0]) := by
  refine ⟨pairwise_sortChapters, sortChapters_stable,
    fun chs res h => projectChapters_spec (sortChapters chs) 0 res h,
    by decide, by decide⟩

theorem C6_witness :
    (([], [0]) : List MediaChapter × List Nat).1
        = (sortChapters [⟨0, some "0.0".data, none, none, none⟩]).filterMap
            projectOne ∧
    (([], [0]) : List MediaChapter × List Nat).2
        = ((List.enumFrom 0
              (sortChapters [⟨0, some "0.0".data, none, none, none⟩])).filter
            (fun p => rawSkip p.2)).map Prod.fst :=
  C6_probe_sort_skip.2.2.1 [⟨0, some "0.0".data, none, none, none⟩]
    ([], [0]) (by decide)

/-- C7 (amended): `iter_defined_tags` yields, in document tag order, the
value of each tag whose key has a catalog entry under EXACT string lookup,
paired with that entry, and silently skips keys with no entry; the
claim's example with `title` and `bogus_key` yields exactly the `title`
pair. Lookup is case-sensitive, not case-insensitive as the claim states
(refuted by `C7_counterexample`). -/
theorem C7_defined_tags :
    (∀ (v : Str) (cs : List MediaChapter),
      MediaMetadata.iter_defined_tags ⟨v, [], cs⟩ = []) ∧
    (∀ (v : Str) (cs : List MediaChapter) (k val : Str)
       (tl : List (Str × Str)) (d : TagDefinition),
      TAG_DEFINITIONS.lookup k = some d →
      MediaMetadata.iter_defined_tags ⟨v, (k, val) :: tl, cs⟩
        = (d, val) :: MediaMetadata.iter_defined_tags ⟨v, tl, cs⟩) ∧
    (∀ (v : Str) (cs : List MediaChapter) (k val : Str)
       (tl : List (Str × Str)),
      TAG_DEFINITIONS.lookup k = none →
      MediaMetadata.iter_defined_tags ⟨v, (k, val) :: tl, cs⟩
        = MediaMetadata.iter_defined_tags ⟨v, tl, cs⟩) ∧
    MediaMetadata.iter_defined_tags
        ⟨"1".data, [("title".data, "X".data), ("bogus_key".data, "Y".data)], []⟩
      = [((td "Title" "Title of the content" "title").2, "X".data)] := by
  refine ⟨fun v cs => rfl, ?_, ?_, by decide⟩
  · intro v cs k val tl d hl
    unfold MediaMetadata.iter_defined_tags
    simp only [List.filterMap_cons]
    rw [hl]
  · intro v cs k val tl hl
    unfold MediaMetadata.iter_defined_tags
    simp only [List.filterMap_cons]
    rw [hl]

theorem C7_witness :
    MediaMetadata.iter_defined_tags ⟨"1".data, [("title".data, "X".data)], []⟩
      = ((td "Title" "Title of the content" "title").2, "X".data)
        :: MediaMetadata.iter_defined_tags ⟨"1".data, [], []⟩ :=
  C7_defined_tags.2.1 "1".data [] "title".data "X".data []
    (td "Title" "Title of the content" "title").2 (by decide)

/-- Refutation of C7's case-insensitivity: the key `Title` differs from
the catalog key `title` only in case — its lowercasing has a catalog
entry — yet `iter_defined_tags` yields nothing for it. -/
theorem C7_counterexample :
    MediaMetadata.iter_defined_tags ⟨"1".data, [("Title".data, "X".data)], []⟩
      = [] ∧
    (TAG_DEFINITIONS.lookup (pyLower "Title".data)).isSome = true := by
  refine ⟨by decide, by decide⟩

/-- C8 (amended): `parse_timestamp` accepts exactly the strings
`H:M:S.f` where hours, minutes and seconds are non-empty runs of AT MOST
two digits (hours further bounded by 23, minutes and seconds by 59 — NOT
"one or more digits" for hours and NOT necessarily zero-padded to two) and
the fraction is zero to three digits (NOT exactly three), scaled to
microseconds by right-padding; soundness and completeness are stated as the
two conjuncts (the original width requirements are refuted by
`C8_counterexample`). -/
theorem C8_parse_timestamp_pattern :
    (∀ hs ms ss fs : Str,
      hs ≠ [] → hs.length ≤ 2 → (∀ c ∈ hs, c.isDigit = true) →
      digitsVal hs ≤ 23 →
      ms ≠ [] → ms.length ≤ 2 → (∀ c ∈ ms, c.isDigit = true) →
      digitsVal ms ≤ 59 →
      ss ≠ [] → ss.length ≤ 2 → (∀ c ∈ ss, c.isDigit = true) →
      digitsVal ss ≤ 59 →
      (∀ c ∈ fs, c.isDigit = true) → fs.length ≤ 3 →
      parse_timestamp (hs ++ ':' :: ms ++ ':' :: ss ++ '.' :: fs)
        = some ⟨digitsVal hs, digitsVal ms, digitsVal ss,
                digitsVal fs * 1000 * 10 ^ (3 - fs.length)⟩) ∧
    (∀ (ts : Str) (t : PyTime), parse_timestamp ts = some t →
      ∃ hs ms ss fs, ts = hs ++ ':' :: ms ++ ':' :: ss ++ '.' :: fs ∧
        (hs ≠ [] ∧ hs.length ≤ 2 ∧ (∀ c ∈ hs, c.isDigit = true) ∧
          digitsVal hs ≤ 23) ∧
        (ms ≠ [] ∧ ms.length ≤ 2 ∧ (∀ c ∈ ms, c.isDigit = true) ∧
          digitsVal ms ≤ 59) ∧
        (ss ≠ [] ∧ ss.length ≤ 2 ∧ (∀ c ∈ ss, c.isDigit = true) ∧
          digitsVal ss ≤ 59) ∧
        ((∀ c ∈ fs, c.isDigit = true) ∧ fs.length ≤ 3) ∧
        t = ⟨digitsVal hs, digitsVal ms, digitsVal ss,
             digitsVal fs * 1000 * 10 ^ (3 - fs.length)⟩) := by
  constructor
  · intro hs ms ss fs h1 h2 h3 h4 h5 h6 h7 h8 h9 h10 h11 h12 h13 h14
    exact parse_timestamp_accepts hs ms ss fs ⟨h1, h2, h3, h4⟩
      ⟨h5, h6, h7, h8⟩ ⟨h9, h10, h11, h12⟩ ⟨h13, h14⟩
  · exact parse_timestamp_sound

theorem C8_witness :
    parse_timestamp "0:5:7.123".data = some ⟨0, 5, 7, 123000⟩ := by
  have h := C8_parse_timestamp_pattern.1 ['0'] ['5'] ['7'] ['1', '2', '3']
    (by decide) (by decide) (by decide) (by decide) (by decide) (by decide)
    (by decide) (by decide) (by decide) (by decide) (by decide) (by decide)
    (by decide) (by decide)
  exact h

/-- Refutation of C8's width requirements: three-digit hours are rejected
(the claim says hours may be one or more digits), while single-digit
minutes and seconds and a single-digit fraction are accepted (the claim
requires two-digit minutes/seconds and exactly three fraction digits). -/
theorem C8_counterexample :
    parse_timestamp "123:00:00.000".data = none ∧
    parse_timestamp "0:5:7.1".data = some ⟨0, 5, 7, 100000⟩ := by
  refine ⟨by decide, by decide⟩

/-- C9: the empty input splits into zero lines and the unconditional
first-line access fails with the index error, not the missing-header
error; every non-empty input splits into at least one line and never
produces the index error. -/
theorem C9_empty_input :
    loads_ffmetadata [] = .error .indexError ∧
    (∀ content : Str, content ≠ [] →
      loads_ffmetadata content ≠ .error .indexError) := by
  constructor
  · decide
  · intro content hne
    unfold loads_ffmetadata
    rcases hs : splitlines content with _ | ⟨first, rest⟩
    · exact absurd hs (splitlines_ne_nil content hne)
    · simp only []
      by_cases hh : pyStrip (pyLower first) ≠ ";ffmetadata".data
      · rw [if_pos hh]
        decide
      · rw [if_neg hh]
        rcases hr : runLines 0 rest initParseState with e | s'
        · simp only []
          intro hcontra
          injection hcontra with he
          exact absurd (hr.trans (by rw [he]))
            (runLines_no_phantom 0 rest initParseState).1
        · simp only []
          exact fun hcontra => Except.noConfusion hcontra

theorem C9_witness : loads_ffmetadata "x".data ≠ .error .indexError :=
  C9_empty_input.2 "x".data (by decide)

/-- C10: the dumper drops a present-but-empty description (the block equals
the block of the same chapter with no description), and consequently a
well-formed metadata value whose chapter at index `i` has the empty-string
description round-trips to that chapter with `description = none`. -/
theorem C10_empty_description :
    (∀ c : MediaChapter, c.description = some [] →
      dumps_ffmetadata_chapter c
        = dumps_ffmetadata_chapter { c with description := none }) ∧
    (∀ (m : MediaMetadata) (i : Nat) (c : MediaChapter),
      (∀ kv ∈ m.tags, WFTag kv) → (∀ c' ∈ m.chapters, WFChapter c') →
      m.chapters[i]? = some c → c.description = some [] →
      ∃ out, dumps_ffmetadata m = some out ∧
        ∃ md, loads_ffmetadata out = .ok md ∧
          md.chapters[i]? = some { c with description := none }) := by
  constructor
  · intro c hc
    unfold dumps_ffmetadata_chapter
    simp [hc, truthyDesc]
  · intro m i c htags hch hget hdesc
    obtain ⟨out, hdumps, hloads⟩ := loads_dumps_roundtrip m htags hch
    refine ⟨out, hdumps, ⟨_, hloads, ?_⟩⟩
    show (m.chapters.map descNorm)[i]? = some { c with description := none }
    rw [List.getElem?_map, hget]
    simp only [Option.map_some']
    unfold descNorm
    rw [hdesc]
    simp

theorem C10_witness :
    ∃ out, dumps_ffmetadata
        ⟨"1".data, [], [⟨"A".data, ⟨0, 0, 0, 0⟩, ⟨0, 0, 1, 0⟩, some []⟩]⟩
      = some out ∧
      ∃ md, loads_ffmetadata out = .ok md ∧
        md.chapters[0]? = some ⟨"A".data, ⟨0, 0, 0, 0⟩, ⟨0, 0, 1, 0⟩, none⟩ :=
  C10_empty_description.2
    ⟨"1".data, [], [⟨"A".data, ⟨0, 0, 0, 0⟩, ⟨0, 0, 1, 0⟩, some []⟩]⟩ 0
    ⟨"A".data, ⟨0, 0, 0, 0⟩, ⟨0, 0, 1, 0⟩, some []⟩
    (by decide) (by decide) (by decide) (by decide)
